import Mathlib

/-!
# Speech-in / speech-out glue: sample buffer, audio callbacks and stdio wrappers

A shallow embedding of `src/record.cc` and `src/speech-in-speech-out.cc`.

* Machine integers (`size_t`, `unsigned long`) are natural numbers reduced
  modulo `2 ^ 64` wherever the source does arithmetic on them.
* `data_t.buffer` is the memory seen through the array `buffer`: cell `i` is
  `buffer[i]`; the array itself is the cells `0 .. buffer_len - 1`.
* Samples (`int16_t`) are only copied, never computed with; they are integers.
* The functions around the buffer run on a `World` (the thread-local
  variables, the pending device input and the log of library calls) and end
  in a `Res`: a returned value, a failed `assert`, or fuel run out. The
  libraries answer through a `Lib`.
* `SourceFile` selects the source file where the two differ: the texts
  printed, the shape of `eff_fprintf`, and what the name `fgets` denotes on
  the plain path of `eff_fgets`.
-/

namespace Speech

/-! ## Constants -/

/-- Number of values of a `size_t` / `unsigned long` (64-bit). -/
abbrev size_mod : Nat := 18446744073709551616

/-- Source constant `sample_rate`. -/
abbrev sample_rate : Nat := 16000

/-- Source constant `max_seconds`. -/
abbrev max_seconds : Nat := 5

/-- Source constant `buffer_len = sample_rate * max_seconds`. -/
abbrev buffer_len : Nat := sample_rate * max_seconds

/-- Modelled from the spec: the PortAudio callback result `paContinue`,
declared in `portaudio.h` (not part of the repository); its value is 0. -/
abbrev paContinue : Int := 0

/-- Modelled from the spec: the PortAudio callback result `paComplete`,
declared in `portaudio.h` (not part of the repository); its value is 1. -/
abbrev paComplete : Int := 1

/-! ## The sample buffer -/

/-- Source `struct data_t`. -/
structure data_t where
  index : Nat
  length : Nat
  rec_length : Nat
  buffer : Nat → Int

/-- Source initialiser `data = { 0, buffer_len, 0, { 0 } }`. -/
def data_init : data_t :=
  { index := 0, length := buffer_len, rec_length := 0, buffer := fun _ => 0 }

/-- Body of the `for` loop of `record`, `k` iterations left, loop counter `i`:
`_local->buffer[_local->index++] = _in[i]`. -/
def record_loop (inp : List Int) : Nat → Nat → data_t → data_t
  | 0, _, d => d
  | k + 1, i, d =>
    record_loop inp k (i + 1)
      { d with buffer := Function.update d.buffer d.index (inp.getD i 0),
               index := (d.index + 1) % size_mod }

/-- Source `record`: the PortAudio input callback. `inp` is the memory behind
`in`, `framesPerBuffer` the frame count. Returns the callback result and the
new buffer state. -/
def record (inp : List Int) (framesPerBuffer : Nat) (d : data_t) : Int × data_t :=
  let has_enough_space : Bool := decide ((d.index + framesPerBuffer) % size_mod < d.length)
  if !has_enough_space then (paComplete, d)
  else (paContinue, record_loop inp framesPerBuffer 0 d)

/-- Body of the `for` loop of `play`, `k` iterations left; `out` holds the
samples already stored in `_out[0 .. i-1]`:
`_out[i] = _local->buffer[_local->index++]`, then the end test against
`_local->length`. -/
def play_loop : Nat → List Int → data_t → Int × data_t × List Int
  | 0, out, d => (paContinue, d, out)
  | k + 1, out, d =>
    let out1 := out ++ [d.buffer d.index]
    let d1 : data_t := { d with index := (d.index + 1) % size_mod }
    let end_of_recording : Bool := decide (d1.index ≥ d1.length)
    if end_of_recording then (paComplete, d1, out1)
    else play_loop k out1 d1

/-- Source `play`: the PortAudio output callback. Returns the callback
result, the new buffer state and the samples written to `out`, in order. -/
def play (framesPerBuffer : Nat) (d : data_t) : Int × data_t × List Int :=
  play_loop framesPerBuffer [] d

/-- The reset at the head of `record_audio`: `data.index = 0`. -/
def record_reset (d : data_t) : data_t :=
  { d with index := 0 }

/-- The reset at the head of `play_audio`:
`data.rec_length = data.index; data.index = 0`. -/
def play_reset (d : data_t) : data_t :=
  { d with rec_length := d.index, index := 0 }

/-! ## Callback drivers

PortAudio calls the stream callback once per chunk and stops calling it once
it has returned `paComplete`. -/

/-- Deliver the chunks `cs` to `record`, one call per chunk, until a call
returns something other than `paContinue`. Returns the results of the calls
made and the final state. -/
def record_stream : List (List Int) → data_t → List Int × data_t
  | [], d => ([], d)
  | c :: cs, d =>
    let r := record c c.length d
    if r.1 = paContinue then
      let rest := record_stream cs r.2
      (r.1 :: rest.1, rest.2)
    else ([r.1], r.2)

/-- Ask `play` for `ns` frames, one call per entry, until a call returns
something other than `paContinue`. Returns the results of the calls made, the
final state and the samples written, concatenated in call order. -/
def play_stream : List Nat → data_t → List Int × data_t × List Int
  | [], d => ([], d, [])
  | n :: ns, d =>
    let r := play n d
    if r.1 = paContinue then
      let rest := play_stream ns r.2.1
      (r.1 :: rest.1, rest.2.1, r.2.2 ++ rest.2.2)
    else ([r.1], r.2.1, r.2.2)

/-- The operations that touch the sample buffer. -/
inductive Op where
  | record (inp : List Int) (framesPerBuffer : Nat)
  | play (framesPerBuffer : Nat)
  | record_reset
  | play_reset

/-- One operation applied to the buffer state. -/
def apply_op : Op → data_t → data_t
  | Op.record inp n, d => (record inp n d).2
  | Op.play n, d => (play n d).2.1
  | Op.record_reset, d => record_reset d
  | Op.play_reset, d => play_reset d

/-- State after a sequence of operations. -/
def run_ops : List Op → data_t → data_t
  | [], d => d
  | o :: os, d => run_ops os (apply_op o d)

/-- Callback protocol of PortAudio as used by `play_audio`: the play callback
is only entered while samples remain before the end test, that is with
`index < length` (it is not called again after it returned `paComplete`). -/
def play_guarded : List Op → data_t → Bool
  | [], _ => true
  | o :: os, d =>
    (match o with
     | Op.play _ => decide (d.index < d.length)
     | _ => true) && play_guarded os (apply_op o d)

/-- Buffer state at the start of the second replay of a session: a first
attempt records the samples 1, 2, 3 and is replayed, the retry records the
single sample 7, and `play_audio` resets for the replay. -/
def second_replay_start : data_t :=
  run_ops [Op.record_reset, Op.record [1, 2, 3] 3, Op.play_reset,
    Op.record_reset, Op.record [7] 1, Op.play_reset] data_init

/-! ## The program around the buffer: libraries, world and outcomes -/

/-- Modelled from the spec: the curses failure status `ERR`, declared in
`curses.h` (not part of the repository); its value is -1. -/
abbrev ERR : Int := -1

/-- Modelled from the spec: the espeak-ng success status `EE_OK`, declared in
`espeak-ng/speak_lib.h` (not part of the repository); its value is 0. -/
abbrev EE_OK : Int := 0

/-- The string terminator. -/
abbrev NUL : Char := Char.ofNat 0

/-- Streams a `FILE *` can point to. -/
inductive FILE where
  | stdin
  | stdout
  | stderr
  | other (id : Nat)
  deriving DecidableEq, Repr

/-- The two source files. They share `record`, `play`, `record_audio`,
`play_audio`, `eff_initialize` and `eff_shutdown` verbatim. -/
inductive SourceFile where
  | record_cc
  | speech_in_speech_out_cc
  deriving DecidableEq, Repr

/-- A variadic argument of a formatted print: a string, an integer, or any
other value, given by its bits. -/
inductive Arg where
  | str (text : List Char)
  | int (value : Int)
  | other (bits : Nat)
  deriving DecidableEq, Repr

/-- Calls into the C library, curses, PortAudio, DeepSpeech and espeak-ng, in
the form they are logged in `World.trace`. -/
inductive Call where
  | vfprintf (stream : FILE) (format : List Char) (args : List Arg)
  | fgets (size : Nat) (stream : Option FILE)
  | vasprintf (format : List Char) (args : List Arg)
  | fileno
  | isatty
  | atexit
  | wprintw (text : List Char)
  | wrefresh
  | keypad (bf : Bool)
  | wtimeout (delay : Int)
  | wgetch
  | cbreak
  | noecho
  | echo
  | initscr
  | endwin
  | Pa_Initialize
  | Pa_Terminate
  | Pa_OpenDefaultStream (numInputChannels numOutputChannels : Nat)
  | Pa_StartStream
  | Pa_Sleep (msec : Nat)
  | Pa_StopStream
  | Pa_CloseStream
  | DS_CreateModel
  | DS_EnableExternalScorer
  | DS_SpeechToText (samples : List Int)
  | DS_FreeString
  | DS_FreeModel
  | espeak_Initialize
  | espeak_SetVoiceByName
  | espeak_Synth (text : List Char) (size : Nat)
  deriving DecidableEq, Repr

/-- Answers of the libraries. `status n c` is the integer (status, count or
handle) returned by call `c` when it is the `n`-th call of the run. -/
structure Lib where
  status : Nat → Call → Int
  /-- The C library's formatting of `format` with `args` (what `vasprintf`
  stores in `temp`). -/
  sprintf : List Char → List Arg → List Char
  /-- A format without any `%` is printed as it stands. -/
  sprintf_verbatim : ∀ format args, '%' ∉ format → sprintf format args = format
  /-- Plain C-library `fgets`: the new content of `str` when it returns
  `str`, `none` when it returns `NULL`. -/
  fgets : Nat → List Char → Nat → Option FILE → Option (List Char)
  /-- The recogniser: the transcript, or `none` for `NULL`. -/
  DS_SpeechToText : List Int → Option (List Char)

/-- Process state: the thread-local variables of the source, the pending
input of the devices and the log of library calls. -/
structure World where
  is_enabled : Bool
  data : data_t
  /-- The curses window `w`; 0 is `NULL`. -/
  w : Int
  /-- Answers of the terminal to the coming `wgetch` calls. -/
  keys : List Int
  /-- Chunks the microphone delivers, one list per input stream started. -/
  mic : List (List (List Int))
  /-- Frame counts the output device asks for, one list per output stream. -/
  spk : List (List Nat)
  trace : List Call

/-- Source initial values: `is_enabled = false`, `data`, `w = nullptr`. -/
def World.init (keys : List Int) (mic : List (List (List Int))) (spk : List (List Nat)) :
    World :=
  { is_enabled := false, data := data_init, w := 0, keys := keys, mic := mic, spk := spk,
    trace := [] }

/-- Outcome of running a function. -/
inductive Res (α : Type) where
  /-- The function returned `v`. -/
  | ok (v : α) (wd : World)
  /-- An `assert` failed: the process is aborted. -/
  | abort (wd : World)
  /-- The fuel ran out with the function still running. -/
  | unfinished

/-- The value returned, if the function returned. -/
def Res.value {α : Type} : Res α → Option α
  | Res.ok v _ => some v
  | _ => none

/-- The world at return or at abort. -/
def Res.world {α : Type} : Res α → Option World
  | Res.ok _ wd => some wd
  | Res.abort wd => some wd
  | Res.unfinished => none

/-- Whether an assertion failed. -/
def Res.aborted {α : Type} : Res α → Bool
  | Res.abort _ => true
  | _ => false

/-- Computations on the world. -/
def M (α : Type) : Type := World → Res α

/-- Sequencing: an abort or an unfinished run ends the computation. -/
def M.bind {α β : Type} (x : M α) (f : α → M β) : M β := fun wd =>
  match x wd with
  | Res.ok v wd1 => f v wd1
  | Res.abort wd1 => Res.abort wd1
  | Res.unfinished => Res.unfinished

instance : Monad M where
  pure v := fun wd => Res.ok v wd
  bind := M.bind

/-- Read the world. -/
def get_world : M World := fun wd => Res.ok wd wd

/-- Change the world. -/
def set_world (f : World → World) : M Unit := fun wd => Res.ok () (f wd)

/-- C `assert`. -/
def assert (b : Bool) : M Unit := fun wd => if b then Res.ok () wd else Res.abort wd

/-- A library call: logged, answered by `lib.status`. -/
def call (lib : Lib) (c : Call) : M Int := fun wd =>
  Res.ok (lib.status wd.trace.length c) { wd with trace := wd.trace ++ [c] }

/-- Curses `wgetch(w)`: the next pending key, `ERR` when none is pending. -/
def wgetch : M Int := fun wd =>
  match wd.keys with
  | [] => Res.ok ERR { wd with trace := wd.trace ++ [Call.wgetch] }
  | k :: ks => Res.ok k { wd with keys := ks, trace := wd.trace ++ [Call.wgetch] }

/-- C-library `vasprintf(&temp, format, args)`: a negative status is a failed
allocation (`temp` is `NULL`), otherwise `temp` is the text the library
formats and the result its length. -/
def vasprintf (lib : Lib) (format : List Char) (args : List Arg) :
    M (Option (List Char) × Int) := fun wd =>
  let c := Call.vasprintf format args
  let wd1 := { wd with trace := wd.trace ++ [c] }
  if lib.status wd.trace.length c < 0 then Res.ok (none, lib.status wd.trace.length c) wd1
  else Res.ok (some (lib.sprintf format args), ((lib.sprintf format args).length : Int)) wd1

/-- C-library `strncpy(dst, src, n)` on the bytes of `dst`; `src` is the text
of a C string (its bytes before the terminator). At most `n` bytes are copied
and the rest of the first `n` bytes is filled with NUL. -/
def strncpy (dst src : List Char) (n : Nat) : List Char :=
  src.take n ++ List.replicate (n - src.length) NUL ++ dst.drop n

/-- Source `eff_vfprintf` of speech-in-speech-out.cc. -/
def eff_vfprintf (lib : Lib) (stream : Option FILE) (format : Option (List Char))
    (ap : List Arg) : M Int := do
  assert (stream.isSome && format.isSome)
  match stream, format with
  | some s, some f =>
    let wd ← get_world
    if !wd.is_enabled || s != FILE.stdout then call lib (Call.vfprintf s f ap)
    else
      let (temp, retval) ← vasprintf lib f ap
      assert temp.isSome
      assert (decide (0 ≤ retval))
      let text := temp.getD []
      let status ← call lib (Call.wprintw text)
      assert (ERR != status)
      let status ← call lib Call.wrefresh
      assert (ERR != status)
      let status ← call lib (Call.espeak_Synth text (text.length + 1))
      assert (EE_OK == status)
      let wd ← get_world
      assert (wd.w != 0)
      pure retval
  | _, _ => pure 0

/-- Source `eff_fprintf`. In record.cc the speech path is written in the
function itself; in speech-in-speech-out.cc it is the call of
`eff_vfprintf`. -/
def eff_fprintf (lib : Lib) (src : SourceFile) (stream : Option FILE)
    (format : Option (List Char)) (args : List Arg) : M Int := do
  assert (stream.isSome && format.isSome)
  match stream, format with
  | some s, some f =>
    let wd ← get_world
    if !wd.is_enabled then call lib (Call.vfprintf s f args)
    else if s != FILE.stdout then call lib (Call.vfprintf s f args)
    else
      match src with
      | SourceFile.record_cc =>
        let (temp, retval) ← vasprintf lib f args
        assert temp.isSome
        assert (decide (0 ≤ retval))
        let text := temp.getD []
        let status ← call lib (Call.wprintw text)
        assert (ERR != status)
        let status ← call lib Call.wrefresh
        assert (ERR != status)
        let status ← call lib (Call.espeak_Synth text (text.length + 1))
        assert (EE_OK == status)
        let wd ← get_world
        assert (wd.w != 0)
        pure retval
      | SourceFile.speech_in_speech_out_cc => eff_vfprintf lib stream format args
  | _, _ => pure 0

/-- The loop `while (wgetch(w) == ' ') ;` of `record_audio` (32 is the space
character). Every iteration takes one pending key, so `n`, the number of
pending keys, bounds it: with no key pending `wgetch` answers `ERR` and the
loop ends. -/
def wgetch_while_space : Nat → M Unit
  | 0 => do
    let key ← wgetch
    if key == 32 then (fun _ => Res.unfinished) else pure ()
  | n + 1 => do
    let key ← wgetch
    if key == 32 then wgetch_while_space n else pure ()

/-- PortAudio runs the `record` callback on the next microphone chunks while
the input stream is started. -/
def run_record_callbacks : M Unit :=
  set_world fun wd =>
    { wd with data := (record_stream (wd.mic.headD []) wd.data).2, mic := wd.mic.tail }

/-- PortAudio runs the `play` callback for the next frame requests while the
output stream is started. -/
def run_play_callbacks : M Unit :=
  set_world fun wd =>
    { wd with data := (play_stream (wd.spk.headD []) wd.data).2.1, spk := wd.spk.tail }

/-- The text `record_audio` prints. -/
def record_prompt : List Char :=
  "Please press and hold the space bar to record your response\n".toList

/-- The text `play_audio` prints. -/
def replay_notice : List Char :=
  "You will now hear a recording of your response\n".toList

/-- Source `record_audio`. -/
def record_audio (lib : Lib) (src : SourceFile) : M Unit := do
  let wd ← get_world
  assert (wd.w != 0)
  set_world fun wd => { wd with data := record_reset wd.data }
  let retval ← call lib (Call.keypad false)
  assert (ERR != retval)
  let _ ← call lib (Call.wtimeout (-1))
  let retval ← eff_fprintf lib src (some FILE.stdout) (some record_prompt) []
  assert (0 != retval)
  let _ ← wgetch
  let _ ← call lib (Call.wtimeout 500)
  let retval ← call lib Call.cbreak
  assert (ERR != retval)
  let retval ← call lib Call.noecho
  assert (ERR != retval)
  let retval ← call lib (Call.Pa_OpenDefaultStream 1 0)
  assert (0 == retval)
  let retval ← call lib Call.Pa_StartStream
  assert (0 == retval)
  run_record_callbacks
  let wd ← get_world
  wgetch_while_space wd.keys.length
  let _ ← call lib (Call.wtimeout (-1))
  let retval ← call lib Call.echo
  assert (ERR != retval)
  let retval ← call lib Call.Pa_StopStream
  assert (0 == retval)
  let retval ← call lib Call.Pa_CloseStream
  assert (0 == retval)

/-- Source `play_audio`. -/
def play_audio (lib : Lib) (src : SourceFile) : M Unit := do
  let wd ← get_world
  assert (wd.w != 0)
  set_world fun wd => { wd with data := play_reset wd.data }
  let retval ← eff_fprintf lib src (some FILE.stdout) (some replay_notice) []
  assert (0 != retval)
  let retval ← call lib (Call.Pa_OpenDefaultStream 0 1)
  assert (0 == retval)
  let retval ← call lib Call.Pa_StartStream
  assert (0 == retval)
  run_play_callbacks
  let wd ← get_world
  let _ ← call lib (Call.Pa_Sleep (wd.data.rec_length / 16))
  let retval ← call lib Call.Pa_StopStream
  assert (0 == retval)
  let retval ← call lib Call.Pa_CloseStream
  assert (0 == retval)

/-- The question `is_retry` prints, one wording per source file. -/
def retry_prompt : SourceFile → List Char
  | SourceFile.record_cc => "Do you want to record your response again?\n".toList
  | SourceFile.speech_in_speech_out_cc =>
    "Press enter if you want to record again. Press any other key to continue.\n".toList

/-- Source `is_retry` (10 is the character `'\n'`). The assertion after
`wgetch` tests `retval`, which still holds the result of `eff_fprintf`. -/
def is_retry (lib : Lib) (src : SourceFile) : M Bool := do
  let wd ← get_world
  assert (wd.w != 0)
  let retval ← call lib (Call.keypad true)
  assert (ERR != retval)
  let retval ← call lib Call.cbreak
  assert (ERR != retval)
  let retval ← eff_fprintf lib src (some FILE.stdout) (some (retry_prompt src)) []
  assert (0 != retval)
  let key ← wgetch
  assert (ERR != retval)
  let retval ← call lib Call.wrefresh
  assert (ERR != retval)
  let retval ← call lib (Call.keypad false)
  assert (ERR != retval)
  pure (key == 10)

/-- The line with the transcript that `eff_fgets` prints, one wording per
source file. -/
def transcript_format : SourceFile → List Char
  | SourceFile.record_cc => "We believe you said: %s\n".toList
  | SourceFile.speech_in_speech_out_cc => "Deep-speech understood: %s\n".toList

/-- Body of the `do ... while (is_retry())` loop of `eff_fgets`, with the loop
test: returns the new content of `str` and the answer of `is_retry`. -/
def eff_fgets_attempt (lib : Lib) (src : SourceFile) (str : List Char) (size : Nat) :
    M (List Char × Bool) := do
  record_audio lib src
  play_audio lib src
  let wd ← get_world
  let buffer_size : Nat := wd.data.rec_length % 4294967296
  let samples := (List.range buffer_size).map wd.data.buffer
  let _ ← call lib (Call.DS_SpeechToText samples)
  let input := lib.DS_SpeechToText samples
  assert input.isSome
  let retval ← eff_fprintf lib src (some FILE.stdout) (some (transcript_format src))
    [Arg.str (input.getD [])]
  assert (decide (0 ≤ retval))
  let retval ← call lib Call.wrefresh
  assert (ERR != retval)
  let str1 := strncpy str (input.getD []) size
  let _ ← call lib Call.DS_FreeString
  let again ← is_retry lib src
  pure (str1, again)

/-- The `do ... while (is_retry())` loop of `eff_fgets`; the fuel bounds the
number of attempts. -/
def eff_fgets_loop (lib : Lib) (src : SourceFile) (size : Nat) :
    Nat → List Char → M (List Char)
  | 0, _ => fun _ => Res.unfinished
  | fuel + 1, str => do
    let (str1, again) ← eff_fgets_attempt lib src str size
    if again then eff_fgets_loop lib src size fuel str1 else pure str1

/-- Source `eff_fgets`. The result is the content of `str` when the function
returns `str` and `none` when it returns `NULL`. The call written `fgets` on
the plain path is the C library's in record.cc; in speech-in-speech-out.cc,
which defines `fgets` itself as a call of `eff_fgets`, it is that definition.
The fuel bounds the depth of calls and the number of attempts. -/
def eff_fgets (lib : Lib) (src : SourceFile) (size : Nat) (stream : Option FILE) :
    Nat → List Char → M (Option (List Char))
  | 0, _ => fun _ => Res.unfinished
  | fuel + 1, str => do
    let wd ← get_world
    if !wd.is_enabled || stream != some FILE.stdin then
      match src with
      | SourceFile.record_cc =>
        let n := wd.trace.length
        let _ ← call lib (Call.fgets size stream)
        pure (lib.fgets n str size stream)
      | SourceFile.speech_in_speech_out_cc => eff_fgets lib src size stream fuel str
    else
      assert (wd.w != 0)
      let str1 ← eff_fgets_loop lib src size fuel str
      pure (some str1)

/-- Source `fgets` of speech-in-speech-out.cc: `return eff_fgets(str, size, stream)`. -/
def fgets (lib : Lib) (size : Nat) (stream : Option FILE) (fuel : Nat) (str : List Char) :
    M (Option (List Char)) :=
  eff_fgets lib SourceFile.speech_in_speech_out_cc size stream fuel str

/-- Source `fprintf` of speech-in-speech-out.cc: a call of `eff_vfprintf`. -/
def fprintf (lib : Lib) (stream : Option FILE) (format : Option (List Char))
    (args : List Arg) : M Int :=
  eff_vfprintf lib stream format args

/-- Source `eff_initialize`. -/
def eff_initialize (lib : Lib) : M Unit := do
  let _ ← call lib Call.fileno
  let tty ← call lib Call.isatty
  set_world fun wd => { wd with is_enabled := tty != 0 }
  let wd ← get_world
  if !wd.is_enabled then pure ()
  else
    let retval ← call lib Call.Pa_Initialize
    assert (0 == retval)
    let win ← call lib Call.initscr
    set_world fun wd => { wd with w := win }
    assert (0 != win)
    let retval ← call lib Call.DS_CreateModel
    assert (0 == retval)
    let retval ← call lib Call.DS_EnableExternalScorer
    assert (0 == retval)
    let retval ← call lib Call.espeak_Initialize
    assert (decide (0 < retval))
    let retval ← call lib Call.espeak_SetVoiceByName
    assert (decide (0 < retval))
    let _ ← call lib Call.atexit
    pure ()

/-- Source `eff_shutdown`. -/
def eff_shutdown (lib : Lib) : M Unit := do
  let wd ← get_world
  if !wd.is_enabled then pure ()
  else
    let retval ← call lib Call.Pa_Terminate
    assert (0 == retval)
    let retval ← call lib Call.endwin
    assert (ERR != retval)
    let _ ← call lib Call.DS_FreeModel
    pure ()

/-- Every call made on the speech path succeeds by the convention of its
library: curses calls do not return `ERR`, PortAudio calls return 0,
`espeak_Synth` returns `EE_OK`, the formatter does not fail and the
recogniser returns a transcript. -/
structure Lib.speech_ok (lib : Lib) : Prop where
  vasprintf_ok : ∀ n f a, 0 ≤ lib.status n (Call.vasprintf f a)
  wprintw_ok : ∀ n t, lib.status n (Call.wprintw t) ≠ ERR
  wrefresh_ok : ∀ n, lib.status n Call.wrefresh ≠ ERR
  synth_ok : ∀ n t k, lib.status n (Call.espeak_Synth t k) = EE_OK
  keypad_ok : ∀ n b, lib.status n (Call.keypad b) ≠ ERR
  cbreak_ok : ∀ n, lib.status n Call.cbreak ≠ ERR
  noecho_ok : ∀ n, lib.status n Call.noecho ≠ ERR
  echo_ok : ∀ n, lib.status n Call.echo ≠ ERR
  open_ok : ∀ n i o, lib.status n (Call.Pa_OpenDefaultStream i o) = 0
  start_ok : ∀ n, lib.status n Call.Pa_StartStream = 0
  stop_ok : ∀ n, lib.status n Call.Pa_StopStream = 0
  close_ok : ∀ n, lib.status n Call.Pa_CloseStream = 0
  stt_ok : ∀ s, (lib.DS_SpeechToText s).isSome = true

/-- The formatter of the sample library `lib_ok`: every `%s` that meets a
string argument is replaced by it, everything else is printed as it stands.
`seen` tells that the character before was a `%` not yet printed. -/
def expand_s : Bool → List Char → List Arg → List Char
  | seen, [], _ => if seen then ['%'] else []
  | false, c :: rest, args =>
    if c = '%' then expand_s true rest args else c :: expand_s false rest args
  | true, c :: rest, args =>
    if c = 's' then
      match args with
      | Arg.str a :: as => a ++ expand_s false rest as
      | _ => '%' :: c :: expand_s false rest args
    else '%' :: c :: expand_s false rest args

/-- A library in which every call succeeds: `isatty` says terminal, `initscr`
returns a window, `espeak_Initialize` returns the sample rate 22050, every
other status is 0 (`OK`, `paNoError`, `EE_OK`); the recogniser answers
`transcript` and the plain `fgets` reads the line `line`. -/
def lib_ok (transcript line : List Char) : Lib :=
  { status := fun _ c =>
      match c with
      | Call.isatty => 1
      | Call.initscr => 1
      | Call.espeak_Initialize => 22050
      | _ => 0,
    sprintf := expand_s false,
    sprintf_verbatim := by
      intro f a h
      induction f with
      | nil => rfl
      | cons c rest ih =>
        have hc : ¬ c = '%' := fun e => h (by rw [e]; exact List.mem_cons_self _ _)
        have hr : '%' ∉ rest := fun m => h (List.mem_cons_of_mem _ m)
        simp only [expand_s, hc, if_false, ih hr],
    fgets := fun _ _ _ _ => some line,
    DS_SpeechToText := fun _ => some transcript }

/-- A world after a successful start on a terminal: speech enabled, window
open, with the given pending keys, microphone chunks and frame requests. -/
def world_tty (keys : List Int) (mic : List (List (List Int))) (spk : List (List Nat)) :
    World :=
  { is_enabled := true, data := data_init, w := 1, keys := keys, mic := mic, spk := spk,
    trace := [] }

/-- The four steps of one attempt of `eff_fgets`. -/
inductive Phase where
  | record
  | replay
  | transcribe
  | retry
  deriving DecidableEq, Repr

/-- The library call that only one step makes: `record_audio` opens the
input stream, `play_audio` opens the output stream, the transcription calls
the recogniser and `is_retry` switches the keypad on. -/
def Call.phase : Call → Option Phase
  | Call.Pa_OpenDefaultStream 1 0 => some Phase.record
  | Call.Pa_OpenDefaultStream 0 1 => some Phase.replay
  | Call.DS_SpeechToText _ => some Phase.transcribe
  | Call.keypad true => some Phase.retry
  | _ => none

/-- The steps a log of calls went through, in order. -/
def phases (trace : List Call) : List Phase :=
  trace.filterMap Call.phase

/-- The steps of one attempt, in order. -/
def attempt_phases : List Phase :=
  [Phase.record, Phase.replay, Phase.transcribe, Phase.retry]

/-- The keys one attempt reads: the key that starts the recording, `hold`
readings of the space bar, the reading that ends the recording, and the key
answered to `is_retry`. -/
structure AttemptKeys where
  start : Int
  hold : Nat
  stop : Int
  answer : Int

/-- The keys of an attempt in the order `wgetch` returns them. -/
def AttemptKeys.keys (a : AttemptKeys) : List Int :=
  a.start :: (List.replicate a.hold 32 ++ [a.stop, a.answer])

/-- The samples handed to the recogniser: `data.buffer[0 .. rec_length - 1]`. -/
def recorded_samples (d : data_t) : List Int :=
  (List.range d.rec_length).map d.buffer

/-- The calls `eff_fprintf` makes on the speech path to print and speak `text`,
the text formatted from `format` and `args`. -/
def speech_calls (format : List Char) (args : List Arg) (text : List Char) : List Call :=
  [Call.vasprintf format args, Call.wprintw text, Call.wrefresh,
    Call.espeak_Synth text (text.length + 1)]

/-- The calls of a successful `record_audio` during which the space bar was
read `hold` times. -/
def record_audio_calls (hold : Nat) : List Call :=
  [Call.keypad false, Call.wtimeout (-1)] ++ speech_calls record_prompt [] record_prompt ++
    [Call.wgetch, Call.wtimeout 500, Call.cbreak, Call.noecho,
      Call.Pa_OpenDefaultStream 1 0, Call.Pa_StartStream] ++
    List.replicate (hold + 1) Call.wgetch ++
    [Call.wtimeout (-1), Call.echo, Call.Pa_StopStream, Call.Pa_CloseStream]

/-- The calls of a successful `play_audio` of a recording of `rec_length`
samples. -/
def play_audio_calls (rec_length : Nat) : List Call :=
  speech_calls replay_notice [] replay_notice ++
    [Call.Pa_OpenDefaultStream 0 1, Call.Pa_StartStream, Call.Pa_Sleep (rec_length / 16),
      Call.Pa_StopStream, Call.Pa_CloseStream]

/-- The calls of an `is_retry` that returns. -/
def is_retry_calls (src : SourceFile) : List Call :=
  [Call.keypad true, Call.cbreak] ++ speech_calls (retry_prompt src) [] (retry_prompt src) ++
    [Call.wgetch, Call.wrefresh, Call.keypad false]

/-- The plain stdio calls. -/
def Call.is_stdio : Call → Bool
  | Call.vfprintf _ _ _ => true
  | Call.fgets _ _ => true
  | _ => false

/-- A computation that, started with speech enabled, keeps it enabled and
makes no plain stdio call, whether it returns or aborts. -/
def speech_only {α : Type} (x : M α) : Prop :=
  ∀ wd wd1, wd.is_enabled = true → (x wd).world = some wd1 →
    wd1.is_enabled = true ∧ ∃ cs, wd1.trace = wd.trace ++ cs ∧ ∀ c ∈ cs, Call.is_stdio c = false

/-! ## Facts about the callbacks -/

theorem record_loop_length (inp : List Int) (k i : Nat) (d : data_t) :
    (record_loop inp k i d).length = d.length := by
  induction k generalizing i d with
  | zero => rfl
  | succ k ih => simp [record_loop, ih]

theorem record_loop_rec_length (inp : List Int) (k i : Nat) (d : data_t) :
    (record_loop inp k i d).rec_length = d.rec_length := by
  induction k generalizing i d with
  | zero => rfl
  | succ k ih => simp [record_loop, ih]

theorem record_loop_index_mod (inp : List Int) (k i : Nat) (d : data_t) :
    (record_loop inp k i d).index % size_mod = (d.index + k) % size_mod := by
  induction k generalizing i d with
  | zero => rfl
  | succ k ih =>
    simp only [record_loop, ih]
    rw [Nat.mod_add_mod]
    congr 1
    omega

theorem record_loop_index_lt (inp : List Int) (k i : Nat) (d : data_t)
    (h : d.index < size_mod) : (record_loop inp k i d).index < size_mod := by
  induction k generalizing i d with
  | zero => exact h
  | succ k ih =>
    simp only [record_loop]
    apply ih
    exact Nat.mod_lt _ (by decide)

theorem record_loop_index (inp : List Int) (k i : Nat) (d : data_t)
    (h : d.index + k < size_mod) : (record_loop inp k i d).index = d.index + k := by
  have h1 := record_loop_index_mod inp k i d
  have h2 := record_loop_index_lt inp k i d (by omega)
  rw [Nat.mod_eq_of_lt h2, Nat.mod_eq_of_lt h] at h1
  exact h1

theorem record_loop_buffer (inp : List Int) (k i : Nat) (d : data_t)
    (h : d.index + k < size_mod) (j : Nat) :
    (record_loop inp k i d).buffer j =
      if d.index ≤ j ∧ j < d.index + k then inp.getD (i + (j - d.index)) 0 else d.buffer j := by
  induction k generalizing i d with
  | zero =>
    have h2 : ¬ (d.index ≤ j ∧ j < d.index + 0) := by omega
    rw [if_neg h2]
    rfl
  | succ k ih =>
    simp only [record_loop]
    have hm : (d.index + 1) % size_mod = d.index + 1 := Nat.mod_eq_of_lt (by omega)
    rw [ih]
    · simp only [hm]
      by_cases hj : j = d.index
      · subst hj
        simp
      · rw [Function.update_noteq hj]
        by_cases h1 : d.index + 1 ≤ j ∧ j < d.index + 1 + k
        · have h2 : d.index ≤ j ∧ j < d.index + (k + 1) := by omega
          rw [if_pos h1, if_pos h2]
          congr 1
          omega
        · have h2 : ¬ (d.index ≤ j ∧ j < d.index + (k + 1)) := by omega
          rw [if_neg h1, if_neg h2]
    · simp only [hm]
      omega

theorem play_loop_fields (k : Nat) (out : List Int) (d : data_t) :
    (play_loop k out d).2.1.buffer = d.buffer ∧
    (play_loop k out d).2.1.length = d.length ∧
    (play_loop k out d).2.1.rec_length = d.rec_length := by
  induction k generalizing out d with
  | zero => exact ⟨rfl, rfl, rfl⟩
  | succ k ih =>
    simp only [play_loop]
    split
    · exact ⟨rfl, rfl, rfl⟩
    · exact ih _ _

theorem play_loop_continue (k : Nat) (out : List Int) (d : data_t)
    (h : d.index + k < d.length) (hl : d.length ≤ size_mod) :
    play_loop k out d =
      (paContinue, { d with index := d.index + k },
        out ++ (List.range k).map (fun j => d.buffer (d.index + j))) := by
  induction k generalizing out d with
  | zero => simp [play_loop]
  | succ k ih =>
    have hm : (d.index + 1) % size_mod = d.index + 1 := Nat.mod_eq_of_lt (by omega)
    have hlt : ¬ (d.index + 1 ≥ d.length) := by omega
    simp only [play_loop, hm, decide_eq_true_eq, hlt, if_false]
    rw [ih (out ++ [d.buffer d.index]) { d with index := d.index + 1 } (by simp only; omega) hl]
    simp only [List.range_succ_eq_map, List.map_cons, List.map_map, List.append_assoc,
      List.singleton_append, Nat.add_zero]
    refine Prod.ext rfl (Prod.ext ?_ ?_)
    · simp only
      congr 1
      omega
    · simp only
      congr 2
      apply List.map_congr_left
      intro a _
      simp only [Function.comp]
      congr 1
      omega

theorem play_loop_index_le (k : Nat) (out : List Int) (d : data_t)
    (h : d.index < d.length) (hl : d.length < size_mod) :
    (play_loop k out d).2.1.index ≤ d.length := by
  induction k generalizing out d with
  | zero => exact Nat.le_of_lt h
  | succ k ih =>
    have hm : (d.index + 1) % size_mod = d.index + 1 := Nat.mod_eq_of_lt (by omega)
    simp only [play_loop, hm, decide_eq_true_eq]
    split
    · simp only
      omega
    · rename_i hge
      exact ih _ _ (by simp only; omega) hl

theorem play_loop_complete (k : Nat) (out : List Int) (d : data_t)
    (h : d.index < d.length) (hk : d.length ≤ d.index + k) (hl : d.length < size_mod) :
    (play_loop k out d).1 = paComplete ∧ (play_loop k out d).2.1.index = d.length := by
  induction k generalizing out d with
  | zero => omega
  | succ k ih =>
    have hm : (d.index + 1) % size_mod = d.index + 1 := Nat.mod_eq_of_lt (by omega)
    simp only [play_loop, hm, decide_eq_true_eq]
    split
    · simp only
      exact ⟨trivial, by omega⟩
    · rename_i hge
      exact ih _ _ (by simp only; omega) (by simp only; omega) hl

theorem play_loop_past_end (k : Nat) (out : List Int) (d : data_t)
    (h : d.length ≤ d.index) (hl : d.index + 1 < size_mod) :
    play_loop (k + 1) out d =
      (paComplete, { d with index := d.index + 1 }, out ++ [d.buffer d.index]) := by
  have hm : (d.index + 1) % size_mod = d.index + 1 := Nat.mod_eq_of_lt hl
  have hge : d.index + 1 ≥ d.length := by omega
  simp only [play_loop, hm, decide_eq_true_eq, hge, if_true]

theorem record_accept (inp : List Int) (n : Nat) (d : data_t)
    (h : (d.index + n) % size_mod < d.length) :
    record inp n d = (paContinue, record_loop inp n 0 d) := by
  simp [record, h]

theorem record_reject (inp : List Int) (n : Nat) (d : data_t)
    (h : ¬ (d.index + n) % size_mod < d.length) :
    record inp n d = (paComplete, d) := by
  simp [record, h]

theorem apply_op_inv (o : Op) (d : data_t)
    (hl : d.length = buffer_len) (hi : d.index ≤ d.length)
    (hg : ∀ n, o = Op.play n → d.index < d.length) :
    (apply_op o d).length = buffer_len ∧ (apply_op o d).index ≤ (apply_op o d).length := by
  have hb : buffer_len < size_mod := by decide
  cases o with
  | record inp n =>
    simp only [apply_op]
    by_cases h : (d.index + n) % size_mod < d.length
    · rw [record_accept inp n d h]
      simp only [record_loop_length]
      refine ⟨hl, ?_⟩
      have h1 := record_loop_index_mod inp n 0 d
      have h2 := record_loop_index_lt inp n 0 d (by omega)
      rw [Nat.mod_eq_of_lt h2] at h1
      omega
    · rw [record_reject inp n d h]
      exact ⟨hl, hi⟩
  | play n =>
    simp only [apply_op, play]
    have hf := play_loop_fields n [] d
    have hlt := hg n rfl
    have hle := play_loop_index_le n [] d hlt (by omega)
    rw [hf.2.1]
    exact ⟨hl, hle⟩
  | record_reset =>
    simp only [apply_op, record_reset]
    exact ⟨hl, Nat.zero_le _⟩
  | play_reset =>
    simp only [apply_op, play_reset]
    exact ⟨hl, Nat.zero_le _⟩

theorem run_ops_inv (ops : List Op) (d : data_t)
    (hl : d.length = buffer_len) (hi : d.index ≤ d.length)
    (hg : play_guarded ops d = true) (k : Nat) :
    (run_ops (ops.take k) d).index ≤ (run_ops (ops.take k) d).length := by
  induction ops generalizing d k with
  | nil => simpa [run_ops] using hi
  | cons o os ih =>
    cases k with
    | zero => simpa [run_ops] using hi
    | succ k =>
      simp only [List.take_succ_cons, run_ops]
      simp only [play_guarded, Bool.and_eq_true] at hg
      have hstep := apply_op_inv o d hl hi (by
        intro n hn
        subst hn
        simpa using hg.1)
      exact ih (apply_op o d) hstep.1 hstep.2 hg.2 k

theorem play_after_complete (n : Nat) (d : data_t)
    (h : d.index < d.length) (hk : d.length ≤ d.index + n) (hl : d.length + 1 < size_mod) :
    (run_ops [Op.play n, Op.play 1] d).index = d.length + 1 ∧
    (run_ops [Op.play n, Op.play 1] d).length = d.length := by
  have hc := play_loop_complete n [] d h hk (by omega)
  have hf := play_loop_fields n [] d
  have hp := play_loop_past_end 0 [] (play_loop n [] d).2.1
    (by rw [hf.2.1, hc.2]) (by rw [hc.2]; exact hl)
  simp only [run_ops, apply_op, play]
  rw [hp]
  exact ⟨by simp only [hc.2], hf.2.1⟩

theorem record_stream_accepted (cs : List (List Int)) (d : data_t)
    (hl : d.length = buffer_len) (hi : d.index ≤ d.length)
    (hsz : ∀ c ∈ cs, 2 * c.length < size_mod)
    (hacc : (record_stream cs d).1 = List.replicate cs.length paContinue) :
    (record_stream cs d).2.index = d.index + cs.flatten.length ∧
    (record_stream cs d).2.length = d.length ∧
    (record_stream cs d).2.rec_length = d.rec_length ∧
    (d.index < d.length → (record_stream cs d).2.index < d.length) ∧
    (∀ j, j < cs.flatten.length →
      cs.flatten[j]? = some ((record_stream cs d).2.buffer (d.index + j))) ∧
    (∀ j, j < d.index → (record_stream cs d).2.buffer j = d.buffer j) := by
  induction cs generalizing d with
  | nil =>
    exact ⟨rfl, rfl, rfl, fun h => h, fun j hj => absurd hj (Nat.not_lt_zero _), fun _ _ => rfl⟩
  | cons c cs ih =>
    have hc : 2 * c.length < size_mod := hsz c (List.mem_cons_self _ _)
    have hb : buffer_len = 80000 := rfl
    have hsm : size_mod = 18446744073709551616 := rfl
    have hw : d.index + c.length < size_mod := by omega
    by_cases hacc1 : (d.index + c.length) % size_mod < d.length
    · have hlt : d.index + c.length < d.length := by
        rw [Nat.mod_eq_of_lt hw] at hacc1
        exact hacc1
      simp only [record_stream, record_accept c c.length d hacc1, if_true, List.length_cons,
        List.replicate_succ, List.cons.injEq, true_and] at hacc ⊢
      have hidx := record_loop_index c c.length 0 d hw
      have hlen := record_loop_length c c.length 0 d
      have hrec := record_loop_rec_length c c.length 0 d
      have hbuf := record_loop_buffer c c.length 0 d hw
      obtain ⟨i1, i2, i3, i4, i5, i6⟩ := ih (record_loop c c.length 0 d)
        (by rw [hlen]; exact hl) (by rw [hlen, hidx]; omega)
        (fun c' hc' => hsz c' (List.mem_cons_of_mem _ hc')) hacc
      rw [hidx] at i1 i5 i6
      rw [hlen] at i2 i4
      rw [hrec] at i3
      rw [hidx] at i4
      refine ⟨?_, i2, i3, fun _ => i4 hlt, ?_, ?_⟩
      · rw [i1, List.flatten_cons, List.length_append]
        omega
      · intro j hj
        rw [List.flatten_cons, List.length_append] at hj
        rw [List.flatten_cons, List.getElem?_append]
        by_cases hjc : j < c.length
        · rw [if_pos hjc, i6 (d.index + j) (by omega), hbuf, if_pos (by omega)]
          simp [List.getD, List.getElem?_eq_getElem hjc]
        · rw [if_neg hjc, i5 (j - c.length) (by omega)]
          congr 2
          omega
      · intro j hj
        rw [i6 j (by omega), hbuf, if_neg (by omega)]
    · exfalso
      simp only [record_stream, record_reject c c.length d hacc1, List.length_cons,
        List.replicate_succ] at hacc
      simp at hacc

theorem play_stream_continue (ns : List Nat) (d : data_t)
    (h : d.index + ns.sum < d.length) (hl : d.length ≤ size_mod) :
    play_stream ns d =
      (List.replicate ns.length paContinue, { d with index := d.index + ns.sum },
        (List.range ns.sum).map (fun j => d.buffer (d.index + j))) := by
  induction ns generalizing d with
  | nil => simp [play_stream]
  | cons n ns ih =>
    rw [List.sum_cons] at h
    have h1 := play_loop_continue n [] d (by omega) hl
    simp only [play_stream, play, h1, if_true, List.nil_append]
    rw [ih { d with index := d.index + n } (by simp only; omega) hl]
    simp only [List.length_cons, List.replicate_succ, List.sum_cons, List.range_add,
      List.map_append, List.map_map]
    refine Prod.ext rfl (Prod.ext ?_ ?_)
    · simp only
      congr 1
      omega
    · simp only
      congr 1
      apply List.map_congr_left
      intro a _
      simp only [Function.comp]
      congr 1
      omega

theorem map_range_eq_take (l : List Int) (f : Nat → Int) (m : Nat) (hm : m ≤ l.length)
    (hf : ∀ j, j < l.length → l[j]? = some (f j)) :
    (List.range m).map f = l.take m := by
  apply List.ext_getElem?
  intro j
  by_cases hj : j < m
  · rw [List.getElem?_map, List.getElem?_range hj, List.getElem?_take_of_lt hj,
      hf j (by omega)]
    rfl
  · rw [List.getElem?_eq_none (by simp; omega), List.getElem?_eq_none (by simp; omega)]

/-! ## Facts about the wrappers -/

theorem bind_ok {α β : Type} (x : M α) (f : α → M β) (wd wd1 : World) (v : α)
    (h : x wd = Res.ok v wd1) : (x >>= f) wd = f v wd1 := by
  show M.bind x f wd = f v wd1
  simp only [M.bind, h]

theorem bind_abort {α β : Type} (x : M α) (f : α → M β) (wd wd1 : World)
    (h : x wd = Res.abort wd1) : (x >>= f) wd = Res.abort wd1 := by
  show M.bind x f wd = Res.abort wd1
  simp only [M.bind, h]

theorem bind_apply {α β : Type} (x : M α) (f : α → M β) (wd : World) :
    (x >>= f) wd = M.bind x f wd := rfl

theorem pure_apply {α : Type} (v : α) (wd : World) : (pure v : M α) wd = Res.ok v wd := rfl

theorem eff_fprintf_speech (lib : Lib) (hok : lib.speech_ok) (src : SourceFile)
    (f : List Char) (args : List Arg) (wd : World)
    (he : wd.is_enabled = true) (hw : wd.w ≠ 0) :
    eff_fprintf lib src (some FILE.stdout) (some f) args wd =
      Res.ok ((lib.sprintf f args).length : Int)
        { wd with trace := wd.trace ++ speech_calls f args (lib.sprintf f args) } := by
  have h1 := hok.vasprintf_ok
  have h2 : ∀ n t, ¬ ERR = lib.status n (Call.wprintw t) := fun n t h => hok.wprintw_ok n t h.symm
  have h3 : ∀ n, ¬ ERR = lib.status n Call.wrefresh := fun n h => hok.wrefresh_ok n h.symm
  have h4 := hok.synth_ok
  cases src <;>
  simp [eff_fprintf, eff_vfprintf, bind_apply, M.bind, assert, get_world, call, vasprintf, he, hw,
    speech_calls,
    pure_apply, h1, h2, h3, h4, not_lt.mpr (h1 _ _ _)]

theorem sprintf_record_prompt (lib : Lib) (a : List Arg) :
    lib.sprintf record_prompt a = record_prompt :=
  lib.sprintf_verbatim _ _ (by decide)

theorem sprintf_replay_notice (lib : Lib) (a : List Arg) :
    lib.sprintf replay_notice a = replay_notice :=
  lib.sprintf_verbatim _ _ (by decide)

theorem sprintf_retry_prompt (lib : Lib) (src : SourceFile) (a : List Arg) :
    lib.sprintf (retry_prompt src) a = retry_prompt src :=
  lib.sprintf_verbatim _ _ (by cases src <;> decide)

theorem wgetch_while_space_released (h : Nat) (stop : Int) (rest : List Int) (hs : stop ≠ 32)
    (n : Nat) (wd : World) (hk : wd.keys = List.replicate h 32 ++ stop :: rest) (hn : h ≤ n) :
    wgetch_while_space n wd =
      Res.ok () { wd with keys := rest,
                          trace := wd.trace ++ List.replicate (h + 1) Call.wgetch } := by
  induction h generalizing n wd with
  | zero =>
    simp only [List.replicate_zero, List.nil_append] at hk
    cases n <;>
    simp [wgetch_while_space, bind_apply, M.bind, wgetch, hk, hs, pure_apply]
  | succ h ih =>
    cases n with
    | zero => omega
    | succ n =>
      simp only [List.replicate_succ, List.cons_append] at hk
      simp only [wgetch_while_space, bind_apply, M.bind, wgetch, hk]
      simp only [beq_self_eq_true, if_true]
      rw [ih n _ rfl (by omega)]
      simp [List.replicate_succ]

theorem phases_append (a b : List Call) : phases (a ++ b) = phases a ++ phases b := by
  simp [phases, List.filterMap_append]

theorem phases_cons (c : Call) (t : List Call) :
    phases (c :: t) = (match Call.phase c with
      | some p => p :: phases t
      | none => phases t) := by
  simp only [phases, List.filterMap_cons]
  cases Call.phase c <;> rfl

theorem phases_nil : phases [] = [] := rfl

theorem phases_replicate_wgetch (n : Nat) : phases (List.replicate n Call.wgetch) = [] := by
  induction n with
  | zero => rfl
  | succ n ih =>
    rw [List.replicate_succ]
    simp [phases_cons, Call.phase, ih]

theorem record_audio_eq (lib : Lib) (hok : lib.speech_ok) (src : SourceFile) (wd : World)
    (start : Int) (h : Nat) (stop : Int) (rest : List Int)
    (he : wd.is_enabled = true) (hw : wd.w ≠ 0) (hs : stop ≠ 32)
    (hk : wd.keys = start :: (List.replicate h 32 ++ stop :: rest)) :
    record_audio lib src wd = Res.ok ()
      { wd with data := (record_stream (wd.mic.headD []) (record_reset wd.data)).2,
                mic := wd.mic.tail, keys := rest,
                trace := wd.trace ++ record_audio_calls h } := by
  have k1 : ∀ n b, ¬ ERR = lib.status n (Call.keypad b) := fun n b e => hok.keypad_ok n b e.symm
  have k2 : ∀ n, ¬ ERR = lib.status n Call.cbreak := fun n e => hok.cbreak_ok n e.symm
  have k3 : ∀ n, ¬ ERR = lib.status n Call.noecho := fun n e => hok.noecho_ok n e.symm
  have k4 : ∀ n, ¬ ERR = lib.status n Call.echo := fun n e => hok.echo_ok n e.symm
  have k5 := hok.open_ok
  have k6 := hok.start_ok
  have k7 := hok.stop_ok
  have k8 := hok.close_ok
  have hloop := fun n wd => wgetch_while_space_released h stop rest hs n wd
  have hmsg : ¬ (0 : Int) = (record_prompt.length : Int) := by decide
  simp [record_audio, bind_apply, M.bind, assert, get_world, set_world, call, wgetch,
    run_record_callbacks, pure_apply, he, hw, hk, eff_fprintf_speech lib hok, sprintf_record_prompt,
    sprintf_replay_notice, sprintf_retry_prompt,
    k1, k2, k3, k4, k5, k6, k7, k8, hloop, hmsg, record_audio_calls, speech_calls]

theorem play_audio_eq (lib : Lib) (hok : lib.speech_ok) (src : SourceFile) (wd : World)
    (he : wd.is_enabled = true) (hw : wd.w ≠ 0) :
    play_audio lib src wd = Res.ok ()
      { wd with data := (play_stream (wd.spk.headD []) (play_reset wd.data)).2.1,
                spk := wd.spk.tail,
                trace := wd.trace ++ play_audio_calls
                  (play_stream (wd.spk.headD []) (play_reset wd.data)).2.1.rec_length } := by
  have k5 := hok.open_ok
  have k6 := hok.start_ok
  have k7 := hok.stop_ok
  have k8 := hok.close_ok
  have hmsg : ¬ (0 : Int) = (replay_notice.length : Int) := by decide
  simp [play_audio, bind_apply, M.bind, assert, get_world, set_world, call,
    run_play_callbacks, pure_apply, he, hw, eff_fprintf_speech lib hok, sprintf_record_prompt,
    sprintf_replay_notice, sprintf_retry_prompt,
    k5, k6, k7, k8, hmsg, play_audio_calls, speech_calls]

theorem is_retry_eq (lib : Lib) (hok : lib.speech_ok) (src : SourceFile) (wd : World)
    (answer : Int) (rest : List Int)
    (he : wd.is_enabled = true) (hw : wd.w ≠ 0) (hk : wd.keys = answer :: rest) :
    is_retry lib src wd = Res.ok (answer == 10)
      { wd with keys := rest, trace := wd.trace ++ is_retry_calls src } := by
  have k1 : ∀ n b, ¬ ERR = lib.status n (Call.keypad b) := fun n b e => hok.keypad_ok n b e.symm
  have k2 : ∀ n, ¬ ERR = lib.status n Call.cbreak := fun n e => hok.cbreak_ok n e.symm
  have k3 : ∀ n, ¬ ERR = lib.status n Call.wrefresh := fun n e => hok.wrefresh_ok n e.symm
  have hmsg : ¬ (0 : Int) = ((retry_prompt src).length : Int) := by
    cases src <;> decide
  have hmsg2 : ¬ ERR = ((retry_prompt src).length : Int) := by
    cases src <;> decide
  simp [is_retry, bind_apply, M.bind, assert, get_world, call, wgetch,
    pure_apply, he, hw, hk, eff_fprintf_speech lib hok, sprintf_record_prompt,
    sprintf_replay_notice, sprintf_retry_prompt,
    k1, k2, k3, hmsg, hmsg2, is_retry_calls, speech_calls]

theorem record_stream_inv (cs : List (List Int)) (d : data_t)
    (hl : d.length = buffer_len) (hi : d.index ≤ d.length) :
    (record_stream cs d).2.length = buffer_len ∧
    (record_stream cs d).2.index ≤ (record_stream cs d).2.length := by
  induction cs generalizing d with
  | nil => exact ⟨hl, hi⟩
  | cons c cs ih =>
    have hstep := apply_op_inv (Op.record c c.length) d hl hi (fun n hn => by cases hn)
    simp only [apply_op] at hstep
    simp only [record_stream]
    split
    · exact ih _ hstep.1 hstep.2
    · exact hstep

theorem play_stream_fields (ns : List Nat) (d : data_t) :
    (play_stream ns d).2.1.buffer = d.buffer ∧
    (play_stream ns d).2.1.length = d.length ∧
    (play_stream ns d).2.1.rec_length = d.rec_length := by
  induction ns generalizing d with
  | nil => exact ⟨rfl, rfl, rfl⟩
  | cons n ns ih =>
    have hf := play_loop_fields n [] d
    simp only [play_stream, play]
    split
    · obtain ⟨i1, i2, i3⟩ := ih (play_loop n [] d).2.1
      exact ⟨i1.trans hf.1, i2.trans hf.2.1, i3.trans hf.2.2⟩
    · exact hf

theorem phases_speech_calls (f : List Char) (a : List Arg) (t : List Char) :
    phases (speech_calls f a t) = [] := by
  simp [speech_calls, phases_cons, phases_nil, Call.phase]

theorem phases_record_audio_calls (h : Nat) : phases (record_audio_calls h) = [Phase.record] := by
  simp [record_audio_calls, phases_append, phases_speech_calls, phases_replicate_wgetch,
    phases_cons, phases_nil, Call.phase]

theorem phases_play_audio_calls (n : Nat) : phases (play_audio_calls n) = [Phase.replay] := by
  simp [play_audio_calls, phases_append, phases_speech_calls, phases_cons, phases_nil, Call.phase]

theorem phases_is_retry_calls (src : SourceFile) : phases (is_retry_calls src) = [Phase.retry] := by
  simp [is_retry_calls, phases_append, phases_speech_calls, phases_cons, phases_nil, Call.phase]

theorem eff_fgets_attempt_ok (lib : Lib) (hok : lib.speech_ok) (src : SourceFile)
    (str : List Char) (size : Nat) (wd : World) (a : AttemptKeys) (rest : List Int)
    (he : wd.is_enabled = true) (hw : wd.w ≠ 0) (hl : wd.data.length = buffer_len)
    (hs : a.stop ≠ 32) (hk : wd.keys = a.keys ++ rest) :
    ∃ wd1 t, eff_fgets_attempt lib src str size wd
        = Res.ok (strncpy str t size, a.answer == 10) wd1 ∧
      wd1.is_enabled = true ∧ wd1.w = wd.w ∧ wd1.data.length = buffer_len ∧ wd1.keys = rest ∧
      phases wd1.trace = phases wd.trace ++ attempt_phases ∧
      lib.DS_SpeechToText (recorded_samples wd1.data) = some t := by
  have hk1 : wd.keys = a.start :: (List.replicate a.hold 32 ++ a.stop :: (a.answer :: rest)) := by
    rw [hk]
    simp [AttemptKeys.keys]
  have hrec := record_audio_eq lib hok src wd a.start a.hold a.stop (a.answer :: rest) he hw hs hk1
  have hplay := play_audio_eq lib hok src
  have hretry := fun wd => is_retry_eq lib hok src wd a.answer rest
  have k3 : ∀ n, ¬ ERR = lib.status n Call.wrefresh := fun n e => hok.wrefresh_ok n e.symm
  have hinv := record_stream_inv (wd.mic.headD []) (record_reset wd.data) hl (Nat.zero_le _)
  have hpf := play_stream_fields (wd.spk.headD [])
    (play_reset (record_stream (wd.mic.headD []) (record_reset wd.data)).2)
  have hrl : (play_stream (wd.spk.headD [])
      (play_reset (record_stream (wd.mic.headD []) (record_reset wd.data)).2)).2.1.rec_length
        % 4294967296
      = (play_stream (wd.spk.headD [])
      (play_reset (record_stream (wd.mic.headD []) (record_reset wd.data)).2)).2.1.rec_length := by
    apply Nat.mod_eq_of_lt
    rw [hpf.2.2]
    show (record_stream (wd.mic.headD []) (record_reset wd.data)).2.index < 4294967296
    have hb : buffer_len = 80000 := rfl
    omega
  have hlen : (play_stream (wd.spk.headD [])
      (play_reset (record_stream (wd.mic.headD []) (record_reset wd.data)).2)).2.1.length
      = buffer_len := by
    rw [hpf.2.1]
    exact hinv.1
  obtain ⟨t, ht⟩ := Option.isSome_iff_exists.mp (hok.stt_ok (recorded_samples
    (play_stream (wd.spk.headD [])
      (play_reset (record_stream (wd.mic.headD []) (record_reset wd.data)).2)).2.1))
  simp only [recorded_samples] at ht
  simp only [List.headD_eq_head?_getD] at hrec hrl ht hlen
  simp [eff_fgets_attempt, bind_apply, M.bind, hrec, hplay, hretry, he, hw, assert, get_world,
    call, pure_apply, eff_fprintf_speech lib hok, k3, hrl, ht, recorded_samples, hlen,
    phases_append, phases_record_audio_calls, phases_play_audio_calls, phases_is_retry_calls,
    phases_speech_calls, phases_cons, phases_nil, Call.phase, attempt_phases]
  refine ⟨_, t, ⟨rfl, rfl⟩, rfl, rfl, hlen, rfl, ?_, ht⟩
  simp [phases_append, phases_record_audio_calls, phases_play_audio_calls, phases_is_retry_calls,
    phases_speech_calls, phases_cons, Call.phase]

theorem strncpy_strncpy (dst s1 s2 : List Char) (n : Nat) :
    strncpy (strncpy dst s1 n) s2 n = strncpy dst s2 n := by
  have hlen : (s1.take n ++ List.replicate (n - s1.length) NUL).length = n := by
    simp only [List.length_append, List.length_take, List.length_replicate]
    omega
  simp only [strncpy]
  congr 1
  rw [List.drop_append_eq_append_drop, hlen, Nat.sub_self, List.drop_zero,
    List.drop_eq_nil_of_le (Nat.le_of_eq hlen), List.nil_append]

theorem eff_fgets_loop_ok (lib : Lib) (hok : lib.speech_ok) (src : SourceFile) (size : Nat)
    (pre : List AttemptKeys) (last : AttemptKeys) (rest : List Int) (fuel : Nat)
    (str : List Char) (wd : World)
    (he : wd.is_enabled = true) (hw : wd.w ≠ 0) (hl : wd.data.length = buffer_len)
    (hstop : ∀ a ∈ pre, a.stop ≠ 32) (hls : last.stop ≠ 32)
    (hpre : ∀ a ∈ pre, a.answer = 10) (hlast : last.answer ≠ 10)
    (hk : wd.keys = (pre.map AttemptKeys.keys).flatten ++ (last.keys ++ rest))
    (hf : pre.length < fuel) :
    ∃ wd1 t, eff_fgets_loop lib src size fuel str wd = Res.ok (strncpy str t size) wd1 ∧
      wd1.is_enabled = true ∧ wd1.w = wd.w ∧ wd1.data.length = buffer_len ∧ wd1.keys = rest ∧
      phases wd1.trace
        = phases wd.trace ++ (List.replicate (pre.length + 1) attempt_phases).flatten ∧
      lib.DS_SpeechToText (recorded_samples wd1.data) = some t := by
  induction pre generalizing fuel str wd with
  | nil =>
    cases fuel with
    | zero => omega
    | succ fuel =>
      simp only [List.map_nil, List.flatten_nil, List.nil_append] at hk
      obtain ⟨wd1, t, h1, h2, h3, h4, h5, h6, h7⟩ :=
        eff_fgets_attempt_ok lib hok src str size wd last rest he hw hl hls hk
      refine ⟨wd1, t, ?_, h2, h3, h4, h5, ?_, h7⟩
      · have hb : (last.answer == 10) = false := by simpa using hlast
        simp only [eff_fgets_loop, bind_apply, M.bind, h1, hb]
        rfl
      · rw [h6]
        simp
  | cons a pre ih =>
    cases fuel with
    | zero => omega
    | succ fuel =>
      simp only [List.map_cons, List.flatten_cons, List.append_assoc] at hk
      obtain ⟨wd1, t, h1, h2, h3, h4, h5, h6, _⟩ :=
        eff_fgets_attempt_ok lib hok src str size wd a _ he hw hl
          (hstop a (List.mem_cons_self _ _)) hk
      obtain ⟨wd2, t2, g1, g2, g3, g4, g5, g6, g7⟩ :=
        ih fuel (strncpy str t size) wd1 h2 (by rw [h3]; exact hw) h4
          (fun b hb => hstop b (List.mem_cons_of_mem _ hb))
          (fun b hb => hpre b (List.mem_cons_of_mem _ hb)) h5
          (by simp only [List.length_cons] at hf; omega)
      refine ⟨wd2, t2, ?_, g2, g3.trans h3, g4, g5, ?_, g7⟩
      · have hb : (a.answer == 10) = true := by
          simp [hpre a (List.mem_cons_self _ _)]
        simp only [eff_fgets_loop, bind_apply, M.bind, h1, hb]
        rw [← strncpy_strncpy str t t2 size]
        exact g1
      · rw [g6, h6]
        simp [List.replicate_succ]

theorem eff_fgets_speech_ok (lib : Lib) (hok : lib.speech_ok) (src : SourceFile) (size : Nat)
    (pre : List AttemptKeys) (last : AttemptKeys) (rest : List Int) (fuel : Nat)
    (str : List Char) (wd : World)
    (he : wd.is_enabled = true) (hw : wd.w ≠ 0) (hl : wd.data.length = buffer_len)
    (hstop : ∀ a ∈ pre, a.stop ≠ 32) (hls : last.stop ≠ 32)
    (hpre : ∀ a ∈ pre, a.answer = 10) (hlast : last.answer ≠ 10)
    (hk : wd.keys = (pre.map AttemptKeys.keys).flatten ++ (last.keys ++ rest))
    (hf : pre.length + 1 < fuel) :
    ∃ wd1 t, eff_fgets lib src size (some FILE.stdin) fuel str wd
        = Res.ok (some (strncpy str t size)) wd1 ∧
      wd1.is_enabled = true ∧ wd1.w = wd.w ∧ wd1.data.length = buffer_len ∧ wd1.keys = rest ∧
      phases wd1.trace
        = phases wd.trace ++ (List.replicate (pre.length + 1) attempt_phases).flatten ∧
      lib.DS_SpeechToText (recorded_samples wd1.data) = some t := by
  cases fuel with
  | zero => omega
  | succ fuel =>
    obtain ⟨wd1, t, h1, h2⟩ := eff_fgets_loop_ok lib hok src size pre last rest fuel str wd
      he hw hl hstop hls hpre hlast hk (by omega)
    refine ⟨wd1, t, ?_, h2⟩
    simp [eff_fgets, bind_apply, M.bind, get_world, assert, he, hw, h1, pure_apply]

theorem lib_ok_speech_ok (transcript line : List Char) : (lib_ok transcript line).speech_ok := by
  constructor <;> intros <;> simp [lib_ok]

theorem eff_fgets_plain (lib : Lib) (size : Nat) (stream : Option FILE) (fuel : Nat)
    (str : List Char) (wd : World)
    (h : wd.is_enabled = false ∨ stream ≠ some FILE.stdin) :
    eff_fgets lib SourceFile.record_cc size stream (fuel + 1) str wd =
      Res.ok (lib.fgets wd.trace.length str size stream)
        { wd with trace := wd.trace ++ [Call.fgets size stream] } := by
  have hc : (!wd.is_enabled || stream != some FILE.stdin) = true := by
    rcases h with h | h
    · simp [h]
    · simp [h]
  simp only [eff_fgets, bind_apply, M.bind, get_world, hc, if_true, call, pure_apply]

theorem eff_fgets_hook_unfinished (lib : Lib) (size : Nat) (stream : Option FILE)
    (str : List Char) (wd : World)
    (h : wd.is_enabled = false ∨ stream ≠ some FILE.stdin) (fuel : Nat) :
    eff_fgets lib SourceFile.speech_in_speech_out_cc size stream fuel str wd
      = Res.unfinished := by
  have hc : (!wd.is_enabled || stream != some FILE.stdin) = true := by
    rcases h with h | h
    · simp [h]
    · simp [h]
  induction fuel with
  | zero => rfl
  | succ fuel ih =>
    simp only [eff_fgets, bind_apply, M.bind, get_world, hc, if_true]
    exact ih

theorem eff_initialize_aborts (lib : Lib) (wd : World)
    (htty : lib.status (wd.trace.length + 1) Call.isatty ≠ 0)
    (hv : lib.status (wd.trace.length + 7) Call.espeak_SetVoiceByName = EE_OK) :
    ( eff_initialize lib wd).aborted = true := by
  have hb : (lib.status (wd.trace.length + 1) Call.isatty != 0) = true := by simpa using htty
  simp only [ eff_initialize, bind_apply, M.bind, call, set_world, get_world, assert, pure_apply,
    List.length_append, List.length_singleton, hb, Bool.not_true, Bool.false_eq_true, if_false,
    Nat.add_assoc, Nat.reduceAdd, hv]
  have hv2 : ¬ (0 < lib.status (wd.trace.length + 7) Call.espeak_SetVoiceByName) := by
    rw [hv]
    decide
  split_ifs <;> try rfl
  simp only [List.length_append, List.length_singleton, Nat.add_assoc, Nat.reduceAdd]
  split_ifs <;> try rfl
  simp only [List.length_append, List.length_singleton, Nat.add_assoc, Nat.reduceAdd]
  split_ifs <;> try rfl
  simp only [List.length_append, List.length_singleton, Nat.add_assoc, Nat.reduceAdd]
  split_ifs <;> try rfl
  simp only [List.length_append, List.length_singleton, Nat.add_assoc, Nat.reduceAdd]
  split_ifs <;> try rfl
  simp only [List.length_append, List.length_singleton, Nat.add_assoc, Nat.reduceAdd, hv2,
    decide_False, Bool.false_eq_true, if_false]
  rfl

theorem speech_only_pure {α : Type} (v : α) : speech_only (pure v : M α) := by
  intro wd wd1 he h
  simp only [pure_apply, Res.world, Option.some.injEq] at h
  subst h
  exact ⟨he, [], by simp, by simp⟩

theorem speech_only_bind {α β : Type} (x : M α) (f : α → M β)
    (hx : speech_only x) (hf : ∀ v, speech_only (f v)) : speech_only (x >>= f) := by
  intro wd wd1 he h
  rw [bind_apply] at h
  simp only [M.bind] at h
  cases hxw : x wd with
  | ok v wd2 =>
    rw [hxw] at h
    obtain ⟨he2, cs, hcs, hno⟩ := hx wd wd2 he (by rw [hxw]; rfl)
    obtain ⟨he3, cs2, hcs2, hno2⟩ := hf v wd2 wd1 he2 h
    refine ⟨he3, cs ++ cs2, by rw [hcs2, hcs, List.append_assoc], ?_⟩
    intro c hc
    rcases List.mem_append.mp hc with hc | hc
    · exact hno c hc
    · exact hno2 c hc
  | abort wd2 =>
    rw [hxw] at h
    apply hx wd wd1 he
    rw [hxw]
    exact h
  | unfinished =>
    rw [hxw] at h
    cases h

theorem speech_only_unfinished {α : Type} : speech_only (fun _ => Res.unfinished : M α) := by
  intro wd wd1 _ h
  cases h

theorem speech_only_assert (b : Bool) : speech_only (assert b) := by
  intro wd wd1 he h
  have : wd1 = wd := by
    simp only [assert] at h
    split at h <;> simp only [Res.world, Option.some.injEq] at h <;> exact h.symm
  subst this
  exact ⟨he, [], by simp, by simp⟩

theorem speech_only_get_world : speech_only get_world := by
  intro wd wd1 he h
  simp only [get_world, Res.world, Option.some.injEq] at h
  subst h
  exact ⟨he, [], by simp, by simp⟩

theorem speech_only_set_world (f : World → World)
    (h1 : ∀ wd, (f wd).is_enabled = wd.is_enabled) (h2 : ∀ wd, (f wd).trace = wd.trace) :
    speech_only (set_world f) := by
  intro wd wd1 he h
  simp only [set_world, Res.world, Option.some.injEq] at h
  subst h
  exact ⟨by rw [h1, he], [], by simp [h2], by simp⟩

theorem speech_only_call (lib : Lib) (c : Call) (hc : Call.is_stdio c = false) :
    speech_only (call lib c) := by
  intro wd wd1 he h
  simp only [call, Res.world, Option.some.injEq] at h
  subst h
  exact ⟨he, [c], rfl, by simpa using hc⟩

theorem speech_only_wgetch : speech_only wgetch := by
  intro wd wd1 he h
  simp only [wgetch] at h
  split at h <;> simp only [Res.world, Option.some.injEq] at h <;> subst h <;>
    exact ⟨he, [Call.wgetch], rfl, by simp [Call.is_stdio]⟩

theorem speech_only_vasprintf (lib : Lib) (f : List Char) (a : List Arg) :
    speech_only (vasprintf lib f a) := by
  intro wd wd1 he h
  simp only [vasprintf] at h
  split at h <;> simp only [Res.world, Option.some.injEq] at h <;> subst h <;>
    exact ⟨he, [Call.vasprintf f a], rfl, by simp [Call.is_stdio]⟩

theorem speech_only_of_eq {α : Type} (x y : M α)
    (h : ∀ wd, wd.is_enabled = true → x wd = y wd) (hy : speech_only y) : speech_only x := by
  intro wd wd1 he hx
  rw [h wd he] at hx
  exact hy wd wd1 he hx

theorem speech_body_speech_only (lib : Lib) (f : List Char) (args : List Arg) :
    speech_only (do
      let (temp, retval) ← vasprintf lib f args
      assert temp.isSome
      assert (decide (0 ≤ retval))
      let text := temp.getD []
      let status ← call lib (Call.wprintw text)
      assert (ERR != status)
      let status ← call lib Call.wrefresh
      assert (ERR != status)
      let status ← call lib (Call.espeak_Synth text (text.length + 1))
      assert (EE_OK == status)
      let wd ← get_world
      assert (wd.w != 0)
      pure retval : M Int) := by
  repeat (first
    | exact speech_only_get_world
    | exact speech_only_assert _
    | exact speech_only_vasprintf _ _ _
    | exact speech_only_call _ _ rfl
    | exact speech_only_pure _
    | apply speech_only_bind
    | intro _)

theorem eff_fprintf_speech_only (lib : Lib) (src : SourceFile) (fmt : Option (List Char))
    (args : List Arg) :
    speech_only (eff_fprintf lib src (some FILE.stdout) fmt args) := by
  cases fmt with
  | none =>
    intro wd wd1 he h
    simp [eff_fprintf, bind_apply, M.bind, assert, Res.world] at h
    subst h
    exact ⟨he, [], by simp, by simp⟩
  | some f =>
    apply speech_only_of_eq _ _ _ (speech_body_speech_only lib f args)
    intro wd he
    cases src <;>
      simp [eff_fprintf, eff_vfprintf, bind_apply, M.bind, assert, get_world, he]

theorem wgetch_while_space_speech_only (n : Nat) : speech_only (wgetch_while_space n) := by
  induction n with
  | zero =>
    simp only [wgetch_while_space]
    apply speech_only_bind _ _ speech_only_wgetch
    intro key
    split
    · exact speech_only_unfinished
    · exact speech_only_pure _
  | succ n ih =>
    simp only [wgetch_while_space]
    apply speech_only_bind _ _ speech_only_wgetch
    intro key
    split
    · exact ih
    · exact speech_only_pure _

theorem record_audio_speech_only (lib : Lib) (src : SourceFile) :
    speech_only (record_audio lib src) := by
  unfold record_audio run_record_callbacks
  repeat (first
    | exact speech_only_get_world
    | exact speech_only_assert _
    | exact speech_only_wgetch
    | exact wgetch_while_space_speech_only _
    | exact eff_fprintf_speech_only _ _ _ _
    | exact speech_only_set_world _ (fun _ => rfl) (fun _ => rfl)
    | exact speech_only_call _ _ rfl
    | exact speech_only_pure _
    | apply speech_only_bind
    | intro _)

theorem play_audio_speech_only (lib : Lib) (src : SourceFile) :
    speech_only (play_audio lib src) := by
  unfold play_audio run_play_callbacks
  repeat (first
    | exact speech_only_get_world
    | exact speech_only_assert _
    | exact eff_fprintf_speech_only _ _ _ _
    | exact speech_only_set_world _ (fun _ => rfl) (fun _ => rfl)
    | exact speech_only_call _ _ rfl
    | exact speech_only_pure _
    | apply speech_only_bind
    | intro _)

theorem is_retry_speech_only (lib : Lib) (src : SourceFile) :
    speech_only (is_retry lib src) := by
  unfold is_retry
  repeat (first
    | exact speech_only_get_world
    | exact speech_only_assert _
    | exact speech_only_wgetch
    | exact eff_fprintf_speech_only _ _ _ _
    | exact speech_only_call _ _ rfl
    | exact speech_only_pure _
    | apply speech_only_bind
    | intro _)

theorem eff_fgets_attempt_speech_only (lib : Lib) (src : SourceFile) (str : List Char)
    (size : Nat) : speech_only (eff_fgets_attempt lib src str size) := by
  unfold eff_fgets_attempt
  repeat (first
    | exact speech_only_get_world
    | exact speech_only_assert _
    | exact record_audio_speech_only _ _
    | exact play_audio_speech_only _ _
    | exact is_retry_speech_only _ _
    | exact eff_fprintf_speech_only _ _ _ _
    | exact speech_only_call _ _ rfl
    | exact speech_only_pure _
    | apply speech_only_bind
    | intro _)

theorem eff_fgets_loop_speech_only (lib : Lib) (src : SourceFile) (size : Nat) (fuel : Nat)
    (str : List Char) : speech_only (eff_fgets_loop lib src size fuel str) := by
  induction fuel generalizing str with
  | zero => exact speech_only_unfinished
  | succ fuel ih =>
    simp only [eff_fgets_loop]
    apply speech_only_bind _ _ (eff_fgets_attempt_speech_only lib src str size)
    intro v
    split
    · exact ih _
    · exact speech_only_pure _

theorem eff_fgets_speech_only (lib : Lib) (src : SourceFile) (size : Nat) (fuel : Nat)
    (str : List Char) : speech_only (eff_fgets lib src size (some FILE.stdin) fuel str) := by
  cases fuel with
  | zero => exact speech_only_unfinished
  | succ fuel =>
    apply speech_only_of_eq _ (do
      let wd ← get_world
      assert (wd.w != 0)
      let str1 ← eff_fgets_loop lib src size fuel str
      pure (some str1))
    · intro wd he
      simp [eff_fgets, bind_apply, M.bind, get_world, he]
    · apply speech_only_bind _ _ speech_only_get_world
      intro wd
      apply speech_only_bind _ _ (speech_only_assert _)
      intro _
      apply speech_only_bind _ _ (eff_fgets_loop_speech_only lib src size fuel str)
      intro _
      exact speech_only_pure _

theorem eff_fprintf_plain (lib : Lib) (s : FILE) (f : List Char) (args : List Arg)
    (wd : World) (h : ¬ (wd.is_enabled = true ∧ s = FILE.stdout)) :
    eff_fprintf lib SourceFile.record_cc (some s) (some f) args wd =
      Res.ok (lib.status wd.trace.length (Call.vfprintf s f args))
        { wd with trace := wd.trace ++ [Call.vfprintf s f args] } := by
  by_cases he : wd.is_enabled = true
  · have hs : s ≠ FILE.stdout := fun e => h ⟨he, e⟩
    simp [eff_fprintf, bind_apply, M.bind, assert, get_world, call, he, hs]
  · simp [eff_fprintf, bind_apply, M.bind, assert, get_world, call, he]

theorem eff_fprintf_null (lib : Lib) (src : SourceFile) (stream : Option FILE)
    (format : Option (List Char)) (args : List Arg) (wd : World)
    (h : stream = none ∨ format = none) :
    eff_fprintf lib src stream format args wd = Res.abort wd := by
  rcases h with h | h
  · subst h
    simp [eff_fprintf, bind_apply, M.bind, assert]
  · subst h
    simp [eff_fprintf, bind_apply, M.bind, assert]

/-! ## The claims -/

/-- C1, as stated, fails: from the initial state the play callback asked for
80000 frames stops with `index = length`; asked for one more frame it stores
`buffer[80000]` and leaves `index = 80001`, above `length = 80000`. -/
theorem C1_index_exceeds_length_counterexample :
    ¬ ((run_ops [Op.play 80000, Op.play 1] data_init).index
        ≤ (run_ops [Op.play 80000, Op.play 1] data_init).length) := by
  intro hle
  have h := play_after_complete 80000 data_init (by decide) (by decide) (by decide)
  rw [h.1, h.2] at hle
  exact Nat.not_succ_le_self _ hle

/-- C1, amended: starting from a state with `index = 0` and
`length = buffer_len = 80000`, after any finite sequence of record callbacks
(any frame count, any input), play callbacks (any frame count), resets of
`record_audio` and resets of `play_audio` in which the play callback is only
entered with `index < length`, every state reached has `index ≤ length`. -/
theorem C1_index_le_length (ops : List Op) (d : data_t)
    (h0 : d.index = 0) (hl : d.length = buffer_len)
    (hg : play_guarded ops d = true) (k : Nat) :
    (run_ops (ops.take k) d).index ≤ (run_ops (ops.take k) d).length :=
  run_ops_inv ops d hl (by omega) hg k

/-- Witness for C1: a recording of three samples, the replay reset and a
replay of two frames, looked at after every operation. -/
theorem C1_index_le_length_witness :
    data_init.index = 0 ∧ data_init.length = buffer_len ∧
    play_guarded [Op.record_reset, Op.record [5, 6, 7] 3, Op.play_reset, Op.play 2] data_init = true ∧
    (run_ops ([Op.record_reset, Op.record [5, 6, 7] 3, Op.play_reset, Op.play 2].take 4)
        data_init).index
      ≤ (run_ops ([Op.record_reset, Op.record [5, 6, 7] 3, Op.play_reset, Op.play 2].take 4)
        data_init).length :=
  ⟨rfl, rfl, by decide,
    C1_index_le_length [Op.record_reset, Op.record [5, 6, 7] 3, Op.play_reset, Op.play 2]
      data_init rfl rfl (by decide) 4⟩

/-- C6: linear buffer filling by `record`. In every state (so in every state
with `index ≤ length = 80000`), for a chunk of `n = framesPerBuffer` samples with
`index + n` not wrapping, the callback returns `paContinue` exactly when
`index + n < length`. When it does, `buffer[index + i] = in[i]` for all
`i < n`, all other cells, `length` and `rec_length` are unchanged and `index`
becomes `index + n`. Otherwise (also when `index + n = length`) it returns
`paComplete` and the state is unchanged. -/
theorem C6_record_linear_fill (inp : List Int) (n : Nat) (d : data_t)
    (hin : inp.length = n) (hw : d.index + n < size_mod) :
    ((record inp n d).1 = paContinue ↔ d.index + n < d.length) ∧
    (d.index + n < d.length →
      (record inp n d).1 = paContinue ∧
      (∀ i, i < n → inp[i]? = some ((record inp n d).2.buffer (d.index + i))) ∧
      (∀ j, j < d.index ∨ d.index + n ≤ j → (record inp n d).2.buffer j = d.buffer j) ∧
      (record inp n d).2.length = d.length ∧
      (record inp n d).2.rec_length = d.rec_length ∧
      (record inp n d).2.index = d.index + n) ∧
    (¬ d.index + n < d.length → record inp n d = (paComplete, d)) := by
  have hm : (d.index + n) % size_mod = d.index + n := Nat.mod_eq_of_lt hw
  refine ⟨?_, ?_, ?_⟩
  · by_cases h : d.index + n < d.length
    · rw [record_accept inp n d (by rw [hm]; exact h)]
      simp [h]
    · rw [record_reject inp n d (by rw [hm]; exact h)]
      simp [h]
  · intro h
    rw [record_accept inp n d (by rw [hm]; exact h)]
    refine ⟨rfl, ?_, ?_, record_loop_length _ _ _ _, record_loop_rec_length _ _ _ _,
      record_loop_index _ _ _ _ hw⟩
    · intro i hlt
      simp only [record_loop_buffer inp n 0 d hw]
      rw [if_pos (by omega)]
      have hlt2 : i < inp.length := by omega
      simp [List.getD, List.getElem?_eq_getElem hlt2]
    · intro j hj
      simp only [record_loop_buffer inp n 0 d hw]
      rw [if_neg (by omega)]
  · intro h
    exact record_reject inp n d (by rw [hm]; exact h)

/-- Witness for C6: a chunk of three samples offered to the initial state. -/
theorem C6_record_linear_fill_witness :
    ((record [5, 6, 7] 3 data_init).1 = paContinue ↔ data_init.index + 3 < data_init.length) ∧
    (data_init.index + 3 < data_init.length →
      (record [5, 6, 7] 3 data_init).1 = paContinue ∧
      (∀ i, i < 3 →
        [5, 6, 7][i]? = some ((record [5, 6, 7] 3 data_init).2.buffer (data_init.index + i))) ∧
      (∀ j, j < data_init.index ∨ data_init.index + 3 ≤ j →
        (record [5, 6, 7] 3 data_init).2.buffer j = data_init.buffer j) ∧
      (record [5, 6, 7] 3 data_init).2.length = data_init.length ∧
      (record [5, 6, 7] 3 data_init).2.rec_length = data_init.rec_length ∧
      (record [5, 6, 7] 3 data_init).2.index = data_init.index + 3) ∧
    (¬ data_init.index + 3 < data_init.length →
      record [5, 6, 7] 3 data_init = (paComplete, data_init)) :=
  C6_record_linear_fill [5, 6, 7] 3 data_init rfl (by decide)

/-- C7: record then replay is a round trip. After the reset of
`record_audio`, let the chunks `cs` (each one fitting in the address space)
be delivered to `record` and all be accepted; after the reset of `play_audio`,
`rec_length` is the total number of samples of `cs`, and for all frame counts
`ns` whose sum is at most `rec_length` every `play` call returns `paContinue`,
the samples written, concatenated in call order, are the first `ns.sum`
samples of the concatenation of `cs`, and `play` changes no buffer cell. -/
theorem C7_record_play_round_trip (cs : List (List Int)) (ns : List Nat) (d : data_t)
    (hl : d.length = buffer_len)
    (hsz : ∀ c ∈ cs, 2 * c.length < size_mod)
    (hacc : (record_stream cs (record_reset d)).1 = List.replicate cs.length paContinue)
    (hm : ns.sum ≤ (play_reset (record_stream cs (record_reset d)).2).rec_length) :
    (play_reset (record_stream cs (record_reset d)).2).rec_length = (cs.map List.length).sum ∧
    (play_stream ns (play_reset (record_stream cs (record_reset d)).2)).1
      = List.replicate ns.length paContinue ∧
    (play_stream ns (play_reset (record_stream cs (record_reset d)).2)).2.2
      = cs.flatten.take ns.sum ∧
    (play_stream ns (play_reset (record_stream cs (record_reset d)).2)).2.1.buffer
      = (record_stream cs (record_reset d)).2.buffer := by
  have hb : buffer_len = 80000 := rfl
  obtain ⟨i1, i2, _, i4, i5, _⟩ := record_stream_accepted cs (record_reset d) hl
    (Nat.zero_le _) hsz hacc
  have h0 : (record_reset d).index = 0 := rfl
  have hl0 : (record_reset d).length = d.length := rfl
  rw [h0, Nat.zero_add] at i1
  rw [hl0] at i2
  have hlt : (record_stream cs (record_reset d)).2.index < d.length := i4 (by rw [h0, hl0]; omega)
  have hrec : (play_reset (record_stream cs (record_reset d)).2).rec_length
      = cs.flatten.length := i1
  rw [hrec] at hm
  have hps := play_stream_continue ns (play_reset (record_stream cs (record_reset d)).2)
    (by
      show 0 + ns.sum < (record_stream cs (record_reset d)).2.length
      rw [i2]
      omega)
    (by
      show (record_stream cs (record_reset d)).2.length ≤ size_mod
      rw [i2, hl]
      decide)
  rw [hps]
  refine ⟨by rw [hrec, List.length_flatten], rfl, ?_, rfl⟩
  apply map_range_eq_take cs.flatten _ ns.sum hm
  intro j hj
  have h5 := i5 j hj
  rw [h0] at h5
  exact h5

/-- Witness for C7: the chunks `[5, 6]` and `[7]` recorded into the initial
state, replayed by calls for one and two frames. -/
theorem C7_record_play_round_trip_witness :
    (play_reset (record_stream [[5, 6], [7]] (record_reset data_init)).2).rec_length
      = ([[5, 6], [7]].map List.length).sum ∧
    (play_stream [1, 2] (play_reset (record_stream [[5, 6], [7]] (record_reset data_init)).2)).1
      = List.replicate [1, 2].length paContinue ∧
    (play_stream [1, 2] (play_reset (record_stream [[5, 6], [7]] (record_reset data_init)).2)).2.2
      = [[5, 6], [7]].flatten.take [1, 2].sum ∧
    (play_stream [1, 2]
        (play_reset (record_stream [[5, 6], [7]] (record_reset data_init)).2)).2.1.buffer
      = (record_stream [[5, 6], [7]] (record_reset data_init)).2.buffer :=
  C7_record_play_round_trip [[5, 6], [7]] [1, 2] data_init rfl (by decide) (by decide)
    (by decide)

/-- C9 fails on the code: `play` tests `index ≥ length` (the capacity), not
`index ≥ rec_length`. At the start of the replay of a one-sample retry
(`rec_length = 1`) that follows a three-sample first attempt, a `play` call
for three frames returns `paContinue` with `index = 3`, having written the
samples 2 and 3 of the earlier attempt, stored at positions 1 and 2. -/
theorem C9_play_runs_past_rec_length :
    second_replay_start.rec_length = 1 ∧ second_replay_start.index = 0 ∧
    (play 3 second_replay_start).1 = paContinue ∧
    (play 3 second_replay_start).2.1.index = 3 ∧
    (play 3 second_replay_start).2.2 = [7, 2, 3] := by
  decide

/-- C8 fails on the code: `strncpy(str, input, size)` writes no terminator
when the transcript has `size` characters or more. With the transcript
"hello", `size = 3` and a buffer holding "xyzw", `eff_fgets` of either source
file returns `str` holding 'h', 'e', 'l', 'w': no NUL among its first three
bytes. -/
theorem C8_transcript_left_unterminated (src : SourceFile) :
    (eff_fgets (lib_ok "hello".toList []) src 3 (some FILE.stdin) 2 "xyzw".toList
        (world_tty [0, 32, 0, 121] [] [])).value = some (some ['h', 'e', 'l', 'w']) ∧
    NUL ∉ ['h', 'e', 'l', 'w'].take 3 := by
  obtain ⟨wd1, t, h1, _, _, _, _, _, h7⟩ := eff_fgets_speech_ok (lib_ok "hello".toList [])
    (lib_ok_speech_ok _ _) src 3 [] ⟨0, 1, 0, 121⟩ [] 2 "xyzw".toList
    (world_tty [0, 32, 0, 121] [] []) rfl (by decide) rfl (by decide) (by decide)
    (by decide) (by decide) (by decide) (by decide)
  have ht : t = "hello".toList := by
    simp only [lib_ok, Option.some.injEq] at h7
    exact h7.symm
  subst ht
  rw [h1]
  refine ⟨?_, by decide⟩
  simp only [Res.value]
  decide

/-- C4 fails on the code: the assertion after `wgetch` tests `retval`, not
`key`. With every other call succeeding, a key read that fails (`wgetch`
returns `ERR`) trips no assertion: `is_retry` of either source file returns
`false`, the answer "no". -/
theorem C4_failed_key_read_answers_no (lib : Lib) (hok : lib.speech_ok) (src : SourceFile)
    (wd : World) (rest : List Int)
    (he : wd.is_enabled = true) (hw : wd.w ≠ 0) (hk : wd.keys = ERR :: rest) :
    (is_retry lib src wd).value = some false ∧ (is_retry lib src wd).aborted = false := by
  rw [is_retry_eq lib hok src wd ERR rest he hw hk]
  exact ⟨rfl, rfl⟩

/-- Witness for C4: the only pending key read is a failed one. -/
theorem C4_failed_key_read_answers_no_witness :
    (is_retry (lib_ok [] []) SourceFile.record_cc (world_tty [ERR] [] [])).value = some false ∧
    (is_retry (lib_ok [] []) SourceFile.record_cc (world_tty [ERR] [] [])).aborted = false :=
  C4_failed_key_read_answers_no (lib_ok [] []) (lib_ok_speech_ok _ _) SourceFile.record_cc
    (world_tty [ERR] [] []) [] rfl (by decide) rfl

/-- C3, as stated, fails: `eff_fprintf` asserts `stream && format` on entry.
Called with speech disabled and a null stream (a case other than "enabled and
stdout"), it makes no `vfprintf` call and returns nothing: the assertion
fails with the log of calls still empty. -/
theorem C3_null_stream_counterexample :
    (World.init [] [] []).is_enabled = false ∧ (World.init [] [] []).trace = [] ∧
    eff_fprintf (lib_ok [] []) SourceFile.record_cc none (some "hi\n".toList) []
      (World.init [] [] []) = Res.abort (World.init [] [] []) :=
  ⟨rfl, rfl, eff_fprintf_null _ _ _ _ _ _ (Or.inl rfl)⟩

/-- C3, amended: routing of the wrapped entry points of record.cc. With a null
stream or format `eff_fprintf` fails its entry assertion and makes no call.
With a non-null stream and format: when speech is enabled and the stream is
`stdout` it makes no plain stdio call, and when its calls succeed it makes
exactly the calls of the speech path (format, print the text to the window,
refresh, synthesize the text) and returns the length of the text; in every
other case it makes exactly one call, `vfprintf` on the given stream with the
given arguments, and returns its result. `eff_fgets` with speech enabled and
the stream `stdin` makes no plain stdio call, and when the library calls
succeed and the terminal answers the keys of the attempts `pre ++ [last]`
(Enter to `is_retry` for `pre`, another key for `last`) it returns `str`
after `pre.length + 1` rounds of record_audio, play_audio, transcription and
is_retry; in every other case it makes exactly one call, `fgets` with the
given arguments, and returns its result. -/
theorem C3_routing (lib : Lib) (wd : World) (out : Option FILE)
    (format : Option (List Char)) (args : List Arg) (size : Nat) (stream : Option FILE)
    (fuel : Nat) (str : List Char) (pre : List AttemptKeys) (last : AttemptKeys)
    (rest : List Int) :
    (out = none ∨ format = none →
      eff_fprintf lib SourceFile.record_cc out format args wd = Res.abort wd) ∧
    (∀ s f, out = some s → format = some f →
      (wd.is_enabled = true ∧ s = FILE.stdout →
        (∀ wd1, (eff_fprintf lib SourceFile.record_cc out format args wd).world = some wd1 →
          ∃ cs, wd1.trace = wd.trace ++ cs ∧ ∀ c ∈ cs, Call.is_stdio c = false) ∧
        (lib.speech_ok → wd.w ≠ 0 →
          eff_fprintf lib SourceFile.record_cc out format args wd =
            Res.ok ((lib.sprintf f args).length : Int)
              { wd with trace := wd.trace ++ speech_calls f args (lib.sprintf f args) })) ∧
      (¬ (wd.is_enabled = true ∧ s = FILE.stdout) →
        eff_fprintf lib SourceFile.record_cc out format args wd =
          Res.ok (lib.status wd.trace.length (Call.vfprintf s f args))
            { wd with trace := wd.trace ++ [Call.vfprintf s f args] })) ∧
    (wd.is_enabled = true ∧ stream = some FILE.stdin →
      (∀ wd1, (eff_fgets lib SourceFile.record_cc size stream fuel str wd).world = some wd1 →
        ∃ cs, wd1.trace = wd.trace ++ cs ∧ ∀ c ∈ cs, Call.is_stdio c = false) ∧
      (lib.speech_ok → wd.w ≠ 0 → wd.data.length = buffer_len →
        (∀ a ∈ pre, a.stop ≠ 32) → last.stop ≠ 32 →
        (∀ a ∈ pre, a.answer = 10) → last.answer ≠ 10 →
        wd.keys = (pre.map AttemptKeys.keys).flatten ++ (last.keys ++ rest) →
        pre.length + 1 < fuel →
        ∃ wd1 t, eff_fgets lib SourceFile.record_cc size stream fuel str wd
            = Res.ok (some (strncpy str t size)) wd1 ∧
          phases wd1.trace
            = phases wd.trace ++ (List.replicate (pre.length + 1) attempt_phases).flatten ∧
          lib.DS_SpeechToText (recorded_samples wd1.data) = some t)) ∧
    (¬ (wd.is_enabled = true ∧ stream = some FILE.stdin) →
      eff_fgets lib SourceFile.record_cc size stream (fuel + 1) str wd =
        Res.ok (lib.fgets wd.trace.length str size stream)
          { wd with trace := wd.trace ++ [Call.fgets size stream] }) := by
  refine ⟨eff_fprintf_null lib _ out format args wd, ?_, ?_, ?_⟩
  · rintro s f rfl rfl
    refine ⟨?_, eff_fprintf_plain lib s f args wd⟩
    rintro ⟨he, rfl⟩
    exact ⟨fun wd1 h => (eff_fprintf_speech_only lib _ _ _ wd wd1 he h).2,
      fun hok hw => eff_fprintf_speech lib hok _ f args wd he hw⟩
  · rintro ⟨he, rfl⟩
    refine ⟨fun wd1 h => (eff_fgets_speech_only lib _ size fuel str wd wd1 he h).2, ?_⟩
    intro hok hw hl hstop hls hpre hlast hk hf
    obtain ⟨wd1, t, h1, _, _, _, _, h6, h7⟩ := eff_fgets_speech_ok lib hok
      SourceFile.record_cc size pre last rest fuel str wd he hw hl hstop hls hpre hlast hk hf
    exact ⟨wd1, t, h1, h6, h7⟩
  · intro h
    apply eff_fgets_plain
    by_cases he : wd.is_enabled = true
    · exact Or.inr (fun e => h ⟨he, e⟩)
    · exact Or.inl (by simpa using he)

/-- Witness for C3: a null format; on a terminal a line printed to `stdout`
is spoken and a line printed to `stderr` goes to `vfprintf`; on a terminal a
read of `stdin` answered with `y` records, replays and transcribes once; with
speech disabled a read of `stdin` goes to `fgets`. -/
theorem C3_routing_witness :
    eff_fprintf (lib_ok [] "yes\n".toList) SourceFile.record_cc (some FILE.stdout) none []
        (world_tty [] [] []) = Res.abort (world_tty [] [] []) ∧
    eff_fprintf (lib_ok [] "yes\n".toList) SourceFile.record_cc (some FILE.stdout)
        (some "hi\n".toList) [] (world_tty [] [] []) =
      Res.ok (((lib_ok [] "yes\n".toList).sprintf "hi\n".toList []).length : Int)
        { world_tty [] [] [] with
          trace := (world_tty [] [] []).trace ++
            speech_calls "hi\n".toList [] ((lib_ok [] "yes\n".toList).sprintf "hi\n".toList []) } ∧
    eff_fprintf (lib_ok [] "yes\n".toList) SourceFile.record_cc (some FILE.stderr)
        (some "hi\n".toList) [] (world_tty [] [] []) =
      Res.ok ((lib_ok [] "yes\n".toList).status (world_tty [] [] []).trace.length
          (Call.vfprintf FILE.stderr "hi\n".toList []))
        { world_tty [] [] [] with
          trace := (world_tty [] [] []).trace ++ [Call.vfprintf FILE.stderr "hi\n".toList []] } ∧
    (∃ wd1 t, eff_fgets (lib_ok "hi".toList []) SourceFile.record_cc 8 (some FILE.stdin) 2
          "xxxxxxxx".toList (world_tty [0, 32, 0, 121] [] [])
        = Res.ok (some (strncpy "xxxxxxxx".toList t 8)) wd1 ∧
      phases wd1.trace
        = phases (world_tty [0, 32, 0, 121] [] []).trace
          ++ (List.replicate (([] : List AttemptKeys).length + 1) attempt_phases).flatten ∧
      (lib_ok "hi".toList []).DS_SpeechToText (recorded_samples wd1.data) = some t) ∧
    eff_fgets (lib_ok [] "yes\n".toList) SourceFile.record_cc 8 (some FILE.stdin) (0 + 1)
        "xxxxxxxx".toList (World.init [] [] []) =
      Res.ok ((lib_ok [] "yes\n".toList).fgets (World.init [] [] []).trace.length
          "xxxxxxxx".toList 8 (some FILE.stdin))
        { World.init [] [] [] with
          trace := (World.init [] [] []).trace ++ [Call.fgets 8 (some FILE.stdin)] } :=
  ⟨(C3_routing (lib_ok [] "yes\n".toList) (world_tty [] [] []) (some FILE.stdout) none []
      8 none 0 [] [] ⟨0, 0, 0, 0⟩ []).1 (Or.inr rfl),
   (((C3_routing (lib_ok [] "yes\n".toList) (world_tty [] [] []) (some FILE.stdout)
      (some "hi\n".toList) [] 8 none 0 [] [] ⟨0, 0, 0, 0⟩ []).2.1
        FILE.stdout "hi\n".toList rfl rfl).1 ⟨rfl, rfl⟩).2 (lib_ok_speech_ok _ _) (by decide),
   ((C3_routing (lib_ok [] "yes\n".toList) (world_tty [] [] []) (some FILE.stderr)
      (some "hi\n".toList) [] 8 none 0 [] [] ⟨0, 0, 0, 0⟩ []).2.1
        FILE.stderr "hi\n".toList rfl rfl).2 (by decide),
   ((C3_routing (lib_ok "hi".toList []) (world_tty [0, 32, 0, 121] [] []) none none []
      8 (some FILE.stdin) 2 "xxxxxxxx".toList [] ⟨0, 1, 0, 121⟩ []).2.2.1 ⟨rfl, rfl⟩).2
        (lib_ok_speech_ok _ _) (by decide) rfl (by decide) (by decide) (by decide) (by decide)
        (by decide) (by decide),
   (C3_routing (lib_ok [] "yes\n".toList) (World.init [] [] []) none none []
      8 (some FILE.stdin) 0 "xxxxxxxx".toList [] ⟨0, 0, 0, 0⟩ []).2.2.2 (by decide)⟩

/-- C2 fails on the code: speech-in-speech-out.cc defines `fgets` itself, so
the call `fgets(str, size, stream)` on the plain path of its `eff_fgets` is a
call of the hook, which calls `eff_fgets` again. With speech disabled or a
stream other than `stdin` the hooked `fgets` has not returned after any
number of steps and never reaches the C library's read, whereas `eff_fgets`
of record.cc makes that one read and returns its result. -/
theorem C2_hooked_fgets_never_returns (lib : Lib) (size : Nat) (stream : Option FILE)
    (str : List Char) (wd : World)
    (h : wd.is_enabled = false ∨ stream ≠ some FILE.stdin) (fuel : Nat) :
    fgets lib size stream fuel str wd = Res.unfinished ∧
    eff_fgets lib SourceFile.record_cc size stream (fuel + 1) str wd =
      Res.ok (lib.fgets wd.trace.length str size stream)
        { wd with trace := wd.trace ++ [Call.fgets size stream] } :=
  ⟨eff_fgets_hook_unfinished lib size stream str wd h fuel,
    eff_fgets_plain lib size stream fuel str wd h⟩

/-- Witness for C2: a read of `stdin` with speech disabled, after 1000 steps. -/
theorem C2_hooked_fgets_never_returns_witness :
    fgets (lib_ok [] "yes\n".toList) 8 (some FILE.stdin) 1000 "xxxxxxxx".toList
        (World.init [] [] []) = Res.unfinished ∧
    eff_fgets (lib_ok [] "yes\n".toList) SourceFile.record_cc 8 (some FILE.stdin) (1000 + 1)
        "xxxxxxxx".toList (World.init [] [] []) =
      Res.ok ((lib_ok [] "yes\n".toList).fgets (World.init [] [] []).trace.length
          "xxxxxxxx".toList 8 (some FILE.stdin))
        { World.init [] [] [] with
          trace := (World.init [] [] []).trace ++ [Call.fgets 8 (some FILE.stdin)] } :=
  C2_hooked_fgets_never_returns (lib_ok [] "yes\n".toList) 8 (some FILE.stdin)
    "xxxxxxxx".toList (World.init [] [] []) (Or.inl rfl) 1000

/-- C10 fails on the code: after `espeak_SetVoiceByName` the source asserts
`0 < retval`, but the success status `EE_OK` is 0. Whenever stdout is a
terminal and `espeak_SetVoiceByName` reports success, `eff_initialize` of
either source file ends in a failed assertion, whatever the other calls
return. -/
theorem C10_successful_start_aborts (lib : Lib) (wd : World)
    (htty : lib.status (wd.trace.length + 1) Call.isatty ≠ 0)
    (hv : lib.status (wd.trace.length + 7) Call.espeak_SetVoiceByName = EE_OK) :
    ( eff_initialize lib wd).aborted = true :=
  eff_initialize_aborts lib wd htty hv

/-- Witness for C10: every start-up call succeeds, from the initial world. -/
theorem C10_successful_start_aborts_witness :
    ( eff_initialize (lib_ok [] []) (World.init [] [] [])).aborted = true :=
  C10_successful_start_aborts (lib_ok [] []) (World.init [] [] []) (by decide) (by decide)

end Speech
